import Mathlib

/-!
Verification of the red-sculpin IEEE 488.2 / SCPI codec core.

The development shallowly embeds the decode/encode engine of the repository:
the `Decoder` state machine of `src/decode.rs` (byte source specialised to the
`&[u8]` slice source of `src/lib.rs`, which yields `UnexpectedEnd` when
exhausted), the per-type decode algorithms of `src/decode.rs` and
`src/decode/*.rs`, the per-type encode algorithms and scratch buffer of
`src/encode.rs` and `src/internal.rs`, and the `ResponseList` composition of
`src/response_data.rs`.

Bytes are modelled as `Nat` values below 256; no byte arithmetic in the code
can overflow or underflow at the places where subtraction occurs, because it
is always guarded by a range test on the byte (for example `byte - b'0'` only
after `b'0' <= byte`).  Heap-allocated targets (`String`, `Vec<u8>`), whose
`write_char`/`write_byte` never fail, are modelled as accumulated lists, so
their `BufferOverflow` arms are dead by construction exactly as in the source.
Generic type parameters (`T: Integer`, `T: Float`) become explicit function
parameters carrying the trait methods the code calls.
-/

namespace RedSculpin

/-- `b'\n'` — the response message terminator (IEEE 488.2: 8.5). -/
def byteLF : Nat := 10

/-- `b';'` — the response message unit separator (IEEE 488.2: 8.4.1). -/
def byteSemicolon : Nat := 59

/-- `b','` — the response data separator (IEEE 488.2: 8.4.2). -/
def byteComma : Nat := 44

/-- `b'"'` — the string quote. -/
def byteQuote : Nat := 34

/-- `b'#'` — the arbitrary block / radix prefix. -/
def byteHash : Nat := 35

/-- Decoder states, from `DecodeState` in src/decode.rs. -/
inductive DecodeState where
  | Initial
  | Data
  | DataExpected
  | MessageUnitExpected
  | End
deriving DecidableEq, Repr

/-- Decode errors, from `DecodeError` in src/decode.rs. -/
inductive DecodeError where
  | Parse
  | UnexpectedEnd
  | BufferOverflow
  | InvalidDecodeState (state : DecodeState)
deriving DecidableEq, Repr

/-- The pull-based decoder of src/decode.rs: the unread bytes of the slice
source, the decode state, and the one-byte peek buffer.  By the decoder
invariant the peeked byte, when present, is the next unread byte. -/
structure Decoder where
  source : List Nat
  state : DecodeState
  peeked : Option Nat
deriving DecidableEq, Repr

/-- `Decoder::new` of src/decode.rs. -/
def Decoder.new (source : List Nat) : Decoder :=
  { source := source, state := DecodeState.Initial, peeked := none }

/-- The stream of bytes still to be read: the peeked byte first (if any),
then the rest of the source. -/
def Decoder.input (d : Decoder) : List Nat :=
  (match d.peeked with
   | some b => [b]
   | none => []) ++ d.source

/-- IEEE 488.2 whitespace test of `Decoder::skip_whitespace` in src/decode.rs:
byte values `0x00..=0x09` and `0x0b..=0x20` (never `0x0a`). -/
def isWhitespace (b : Nat) : Bool :=
  b ≤ 0x09 || (0x0b ≤ b && b ≤ 0x20)

/-- `Decoder::read_byte` of src/decode.rs: the peeked byte is consumed first,
then the slice source, which fails with `UnexpectedEnd` when empty
(the `ByteSource` impl for `&[u8]` in src/lib.rs). -/
def Decoder.readByte (d : Decoder) : Except DecodeError (Nat × Decoder) :=
  match d.peeked with
  | some b => Except.ok (b, { d with peeked := none })
  | none =>
    match d.source with
    | [] => Except.error DecodeError.UnexpectedEnd
    | b :: rest => Except.ok (b, { d with source := rest })

/-- `Decoder::peek_byte` of src/decode.rs. -/
def Decoder.peekByte (d : Decoder) : Except DecodeError (Nat × Decoder) :=
  match d.peeked with
  | some b => Except.ok (b, d)
  | none =>
    match d.source with
    | [] => Except.error DecodeError.UnexpectedEnd
    | b :: rest => Except.ok (b, { d with source := rest, peeked := some b })

/-- The read loop inside `Decoder::skip_whitespace`, specialised to the slice
source: read bytes until a non-whitespace byte appears; if the source runs
out first, the read fails with `UnexpectedEnd` having consumed everything. -/
def findNonWhitespace : List Nat → Except DecodeError (Nat × List Nat)
  | [] => Except.error DecodeError.UnexpectedEnd
  | b :: rest =>
    if isWhitespace b then findNonWhitespace rest else Except.ok (b, rest)

/-- `Decoder::skip_whitespace` of src/decode.rs: loop `read_byte` past
whitespace, then store the first non-whitespace byte back in the peek buffer.
On `UnexpectedEnd` the whole (all-whitespace) input has been consumed. -/
def Decoder.skipWhitespace (d : Decoder) :
    Except DecodeError Decoder × Decoder :=
  match d.peeked with
  | some b =>
    if isWhitespace b then
      match findNonWhitespace d.source with
      | Except.ok (b', rest) =>
        (Except.ok { d with source := rest, peeked := some b' },
         { d with source := rest, peeked := some b' })
      | Except.error e =>
        (Except.error e, { d with source := [], peeked := none })
    else
      (Except.ok d, d)
  | none =>
    match findNonWhitespace d.source with
    | Except.ok (b', rest) =>
      (Except.ok { d with source := rest, peeked := some b' },
       { d with source := rest, peeked := some b' })
    | Except.error e =>
      (Except.error e, { d with source := [], peeked := none })

/-- `Decoder::begin_response_data` of src/decode.rs.  Returned alongside the
result is the decoder as Rust's `&mut self` leaves it: unchanged when the
state check fails, fully consumed when the whitespace skip hits end of
input. -/
def Decoder.beginResponseData (d : Decoder) :
    Except DecodeError Unit × Decoder :=
  match d.state with
  | DecodeState.Initial | DecodeState.DataExpected
  | DecodeState.MessageUnitExpected =>
    match d.skipWhitespace with
    | (Except.ok d', _) => (Except.ok (), { d' with state := DecodeState.Data })
    | (Except.error e, d') => (Except.error e, d')
  | st => (Except.error (DecodeError.InvalidDecodeState st), d)

/-- The state transition of `Decoder::end_with` in src/decode.rs: legal only
from `Data`; `\n` ends the message, `;` expects a new message unit, `,`
expects more data, and anything else is rejected with the
`InvalidDecodeState` error carrying the current (`Data`) state. -/
def endWithState (st : DecodeState) (b : Nat) : Except DecodeError DecodeState :=
  match st with
  | DecodeState.Data =>
    if b = byteLF then Except.ok DecodeState.End
    else if b = byteSemicolon then Except.ok DecodeState.MessageUnitExpected
    else if b = byteComma then Except.ok DecodeState.DataExpected
    else Except.error (DecodeError.InvalidDecodeState DecodeState.Data)
  | st => Except.error (DecodeError.InvalidDecodeState st)

/-- `Decoder::end_with` as a decoder operation. -/
def Decoder.endWith (d : Decoder) (b : Nat) : Except DecodeError Decoder :=
  match endWithState d.state b with
  | Except.ok st => Except.ok { d with state := st }
  | Except.error e => Except.error e

/-- `Decoder::is_at_end` of src/decode.rs. -/
def Decoder.isAtEnd (d : Decoder) : Bool :=
  d.state = DecodeState.End

/-- `b'0'..=b'9'` (the `digit` helper of src/decode.rs). -/
def isDigit (b : Nat) : Bool :=
  48 ≤ b && b ≤ 57

/-- `b'A'..=b'F' | b'0'..=b'9'` (the `hex_digit` helper of src/decode.rs). -/
def isHexDigit (b : Nat) : Bool :=
  (65 ≤ b && b ≤ 70) || isDigit b

/-- `b'0'..=b'7'` (the `octal_digit` helper of src/decode.rs). -/
def isOctalDigit (b : Nat) : Bool :=
  48 ≤ b && b ≤ 55

/-- `b'0'..=b'1'` (the `binary_digit` helper of src/decode.rs). -/
def isBinaryDigit (b : Nat) : Bool :=
  b = 48 || b = 49

/-- `Decoder::decode_boolean` of src/decode/boolean.rs, operating on the
decode state and the unread bytes: a single `'0'`/`'1'` byte, then one more
byte interpreted by `end_with`. -/
def decodeBoolean (st : DecodeState) :
    List Nat → Except DecodeError (Bool × DecodeState × List Nat)
  | [] => Except.error DecodeError.UnexpectedEnd
  | b :: rest =>
    if b = 48 then
      match rest with
      | [] => Except.error DecodeError.UnexpectedEnd
      | t :: rest' =>
        match endWithState st t with
        | Except.ok st' => Except.ok (false, st', rest')
        | Except.error e => Except.error e
    else if b = 49 then
      match rest with
      | [] => Except.error DecodeError.UnexpectedEnd
      | t :: rest' =>
        match endWithState st t with
        | Except.ok st' => Except.ok (true, st', rest')
        | Except.error e => Except.error e
    else Except.error DecodeError.Parse

/-- The accumulate-until-terminator loop shared (up to the digit class and
radix) by the four branches of `decode_numeric_integer`: push every byte of
the digit class onto the text buffer; at the first other byte run `end_with`
on it and hand the buffer to `T::from_str_radix`, whose failure is a `Parse`
error. -/
def decodeIntLoop {α : Type} (validDigit : Nat → Bool) (radix : Nat)
    (fromStrRadix : List Nat → Nat → Option α) (buf : List Nat)
    (st : DecodeState) :
    List Nat → Except DecodeError (α × DecodeState × List Nat)
  | [] => Except.error DecodeError.UnexpectedEnd
  | b :: rest =>
    if validDigit b then
      decodeIntLoop validDigit radix fromStrRadix (buf ++ [b]) st rest
    else
      match endWithState st b with
      | Except.ok st' =>
        match fromStrRadix buf radix with
        | some v => Except.ok (v, st', rest)
        | none => Except.error DecodeError.Parse
      | Except.error e => Except.error e

/-- `decode_numeric_integer` of src/decode.rs (also
`Decoder::decode_numeric_integer` of src/decode/numeric_integer.rs): an
optional sign followed by a mandatory decimal digit, or `#H`/`#Q`/`#B` with a
mandatory first digit of the radix, then the matching digit loop.  The
generic `T: Integer` is carried as the `fromStrRadix` parameter. -/
def decodeNumericInteger {α : Type}
    (fromStrRadix : List Nat → Nat → Option α) (st : DecodeState) :
    List Nat → Except DecodeError (α × DecodeState × List Nat)
  | [] => Except.error DecodeError.UnexpectedEnd
  | b :: rest =>
    if b = 43 || b = 45 then
      match rest with
      | [] => Except.error DecodeError.UnexpectedEnd
      | c :: rest' =>
        if isDigit c then
          decodeIntLoop isDigit 10 fromStrRadix [b, c] st rest'
        else Except.error DecodeError.Parse
    else if b = byteHash then
      match rest with
      | [] => Except.error DecodeError.UnexpectedEnd
      | c :: rest' =>
        if c = 72 then
          match rest' with
          | [] => Except.error DecodeError.UnexpectedEnd
          | h :: rest'' =>
            if isHexDigit h then
              decodeIntLoop isHexDigit 16 fromStrRadix [h] st rest''
            else Except.error DecodeError.Parse
        else if c = 81 then
          match rest' with
          | [] => Except.error DecodeError.UnexpectedEnd
          | h :: rest'' =>
            if isOctalDigit h then
              decodeIntLoop isOctalDigit 8 fromStrRadix [h] st rest''
            else Except.error DecodeError.Parse
        else if c = 66 then
          match rest' with
          | [] => Except.error DecodeError.UnexpectedEnd
          | h :: rest'' =>
            if isBinaryDigit h then
              decodeIntLoop isBinaryDigit 2 fromStrRadix [h] st rest''
            else Except.error DecodeError.Parse
        else Except.error DecodeError.Parse
    else if isDigit b then
      decodeIntLoop isDigit 10 fromStrRadix [b] st rest
    else Except.error DecodeError.Parse

/-- The exponent-digit loop of `Decoder::decode_numeric_float`
(src/decode/numeric_float.rs): more exponent digits until the terminator,
then `T::from_str` on the assembled text. -/
def floatExponentLoop {α : Type} (fromStr : List Nat → Option α)
    (buf : List Nat) (st : DecodeState) :
    List Nat → Except DecodeError (α × DecodeState × List Nat)
  | [] => Except.error DecodeError.UnexpectedEnd
  | b :: rest =>
    if isDigit b then floatExponentLoop fromStr (buf ++ [b]) st rest
    else
      match endWithState st b with
      | Except.ok st' =>
        match fromStr buf with
        | some v => Except.ok (v, st', rest)
        | none => Except.error DecodeError.Parse
      | Except.error e => Except.error e

/-- The fraction-digit loop of `Decoder::decode_numeric_float`
(src/decode/numeric_float.rs): more fraction digits; `E` starts the exponent
(mandatory sign, then mandatory digit); any other byte is the terminator and
the assembled text goes to `T::from_str`. -/
def floatFractionLoop {α : Type} (fromStr : List Nat → Option α)
    (buf : List Nat) (st : DecodeState) :
    List Nat → Except DecodeError (α × DecodeState × List Nat)
  | [] => Except.error DecodeError.UnexpectedEnd
  | b :: rest =>
    if isDigit b then floatFractionLoop fromStr (buf ++ [b]) st rest
    else if b = 69 then
      match rest with
      | [] => Except.error DecodeError.UnexpectedEnd
      | s :: rest' =>
        if s = 43 || s = 45 then
          match rest' with
          | [] => Except.error DecodeError.UnexpectedEnd
          | c :: rest'' =>
            if isDigit c then
              floatExponentLoop fromStr (buf ++ [69, s, c]) st rest''
            else Except.error DecodeError.Parse
        else Except.error DecodeError.Parse
    else
      match endWithState st b with
      | Except.ok st' =>
        match fromStr buf with
        | some v => Except.ok (v, st', rest)
        | none => Except.error DecodeError.Parse
      | Except.error e => Except.error e

/-- The integer-digit loop of `Decoder::decode_numeric_float`
(src/decode/numeric_float.rs): more integer digits until the mandatory `.`,
which must be followed by a mandatory fraction digit; anything else is a
`Parse` error. -/
def floatIntegerLoop {α : Type} (fromStr : List Nat → Option α)
    (buf : List Nat) (st : DecodeState) :
    List Nat → Except DecodeError (α × DecodeState × List Nat)
  | [] => Except.error DecodeError.UnexpectedEnd
  | b :: rest =>
    if isDigit b then floatIntegerLoop fromStr (buf ++ [b]) st rest
    else if b = 46 then
      match rest with
      | [] => Except.error DecodeError.UnexpectedEnd
      | c :: rest' =>
        if isDigit c then floatFractionLoop fromStr (buf ++ [46, c]) st rest'
        else Except.error DecodeError.Parse
    else Except.error DecodeError.Parse

/-- `Decoder::decode_numeric_float` of src/decode/numeric_float.rs: an
optional sign with a mandatory first digit, integer digits, a mandatory `.`
with a mandatory fraction digit, optionally `E` + mandatory sign + mandatory
digit, until the terminator; the assembled text is parsed by the target
float type's `from_str` (the `fromStr` parameter). -/
def decodeNumericFloat {α : Type} (fromStr : List Nat → Option α)
    (st : DecodeState) :
    List Nat → Except DecodeError (α × DecodeState × List Nat)
  | [] => Except.error DecodeError.UnexpectedEnd
  | b :: rest =>
    if b = 43 || b = 45 then
      match rest with
      | [] => Except.error DecodeError.UnexpectedEnd
      | c :: rest' =>
        if isDigit c then floatIntegerLoop fromStr [b, c] st rest'
        else Except.error DecodeError.Parse
    else if isDigit b then floatIntegerLoop fromStr [b] st rest
    else Except.error DecodeError.Parse

/-- The copy loop of `Decoder::decode_string` (src/decode/string.rs): ASCII
bytes are appended to the target verbatim; a `"` either doubles (one `"` is
appended) or, with the byte after it, ends the string via `end_with`; a
non-ASCII byte is a `Parse` error.  The target is a heap `String`, whose
`write_char` never fails. -/
def decodeStringLoop (st : DecodeState) (acc : List Nat) :
    List Nat → Except DecodeError (List Nat × DecodeState × List Nat)
  | [] => Except.error DecodeError.UnexpectedEnd
  | b :: rest =>
    if b = byteQuote then
      match rest with
      | [] => Except.error DecodeError.UnexpectedEnd
      | c :: rest' =>
        if c = byteQuote then decodeStringLoop st (acc ++ [byteQuote]) rest'
        else
          match endWithState st c with
          | Except.ok st' => Except.ok (acc, st', rest')
          | Except.error e => Except.error e
    else if b ≤ 127 then decodeStringLoop st (acc ++ [b]) rest
    else Except.error DecodeError.Parse

/-- `Decoder::decode_string` of src/decode/string.rs (also `decode_string` of
src/decode.rs): a mandatory opening `"`, then the copy loop. -/
def decodeString (st : DecodeState) :
    List Nat → Except DecodeError (List Nat × DecodeState × List Nat)
  | [] => Except.error DecodeError.UnexpectedEnd
  | b :: rest =>
    if b = byteQuote then decodeStringLoop st [] rest
    else Except.error DecodeError.Parse

/-- The on-wire form of a string body: every `"` doubled.  This is the image
`decode_string`'s unescape loop inverts, and (proved below) the net effect
of `encode_string`'s split-and-rejoin chunk loop. -/
def escapeBytes : List Nat → List Nat
  | [] => []
  | b :: bs =>
    if b = byteQuote then byteQuote :: byteQuote :: escapeBytes bs
    else b :: escapeBytes bs

/-- The fixed-capacity stack buffer `ArrayBuffer<LEN>` of src/internal.rs,
as its capacity plus the bytes written so far. -/
structure ArrayBuffer where
  capacity : Nat
  written : List Nat
deriving DecidableEq, Repr

/-- `ArrayBuffer::new`. -/
def ArrayBuffer.new (capacity : Nat) : ArrayBuffer :=
  { capacity := capacity, written := [] }

/-- `ArrayBuffer::push` of src/internal.rs: appends one byte, or fails with
`ArrayBufferFull` (modelled as the `Unit` error) when the buffer is full. -/
def ArrayBuffer.push (buf : ArrayBuffer) (b : Nat) :
    Except Unit ArrayBuffer :=
  if buf.written.length < buf.capacity then
    Except.ok { buf with written := buf.written ++ [b] }
  else Except.error ()

/-- `ArrayBuffer::push_all` of src/internal.rs: appends a whole slice if it
fits, otherwise fails without writing (this is also the `fmt::Write`
instance used by `write!`, which formats integers in one `write_str`). -/
def ArrayBuffer.pushAll (buf : ArrayBuffer) (bs : List Nat) :
    Except Unit ArrayBuffer :=
  if buf.written.length + bs.length ≤ buf.capacity then
    Except.ok { buf with written := buf.written ++ bs }
  else Except.error ()

/-- The length-prefix loop of `Decoder::decode_arbitrary_block`
(src/decode/arbitrary_block.rs): read exactly `n` decimal digits, pushing
each into the 9-byte scratch buffer; a push failure is `BufferOverflow`. -/
def readBlockLengthDigits (n : Nat) (buf : ArrayBuffer) :
    List Nat → Except DecodeError (ArrayBuffer × List Nat) :=
  match n with
  | 0 => fun input => Except.ok (buf, input)
  | n + 1 => fun input =>
    match input with
    | [] => Except.error DecodeError.UnexpectedEnd
    | b :: rest =>
      if isDigit b then
        match buf.push b with
        | Except.ok buf' => readBlockLengthDigits n buf' rest
        | Except.error _ => Except.error DecodeError.BufferOverflow
      else Except.error DecodeError.Parse

/-- The payload loop of the definite form: copy exactly `n` raw bytes
verbatim into the target (a `Vec<u8>`, whose `write_byte` never fails). -/
def readBlockBytes (n : Nat) :
    List Nat → Except DecodeError (List Nat × List Nat) :=
  match n with
  | 0 => fun input => Except.ok ([], input)
  | n + 1 => fun input =>
    match input with
    | [] => Except.error DecodeError.UnexpectedEnd
    | b :: rest =>
      match readBlockBytes n rest with
      | Except.ok (blk, rest') => Except.ok (b :: blk, rest')
      | Except.error e => Except.error e

/-- The indefinite-form loop of `Decoder::decode_arbitrary_block`: copy raw
bytes verbatim until a literal `\n`, which is applied via `end_with`. -/
def indefiniteBlockLoop (st : DecodeState) (acc : List Nat) :
    List Nat → Except DecodeError (List Nat × DecodeState × List Nat)
  | [] => Except.error DecodeError.UnexpectedEnd
  | b :: rest =>
    if b = byteLF then
      match endWithState st b with
      | Except.ok st' => Except.ok (acc, st', rest)
      | Except.error e => Except.error e
    else indefiniteBlockLoop st (acc ++ [b]) rest

/-- `usize::MAX` of the 64-bit targets the crate supports. -/
def usizeMax : Nat := 2 ^ 64 - 1

/-- Model of Rust's `char::to_digit`-style byte classification used by
`from_str_radix`: `0-9` map to 0–9, `A-Z` to 10–35, `a-z` to 10–35, anything
else is not a digit. -/
def asciiDigitValue (b : Nat) : Option Nat :=
  if 48 ≤ b && b ≤ 57 then some (b - 48)
  else if 65 ≤ b && b ≤ 90 then some (b - 55)
  else if 97 ≤ b && b ≤ 122 then some (b - 87)
  else none

/-- A digit of the given radix, or `none`. -/
def digitInRadix (radix : Nat) (b : Nat) : Option Nat :=
  match asciiDigitValue b with
  | some v => if v < radix then some v else none
  | none => none

/-- The value of a most-significant-first digit string in the given radix;
`none` if any byte is not a digit of the radix. -/
def digitsValue? (radix : Nat) (s : List Nat) : Option Nat :=
  s.foldl
    (fun acc b =>
      match acc, digitInRadix radix b with
      | some a, some v => some (a * radix + v)
      | _, _ => none)
    (some 0)

/-- Model of Rust's unsigned `from_str_radix` (the `Integer` impls of
src/internal.rs for `u8`..`u128`/`usize`, with `max` the type's maximum):
an optional leading `+`, then one or more digits of the radix.  A minus
sign, any other byte, an empty digit string, or a value above `max` is an
error.  (Rust detects overflow stepwise with checked arithmetic; over the
naturals the accumulated value only grows as digits are appended, so a step
failing is exactly the final value exceeding `max`.) -/
def rustFromStrRadixUnsigned (max : Nat) (s : List Nat) (radix : Nat) :
    Option Nat :=
  let digits :=
    match s with
    | c :: rest => if c = 43 then rest else s
    | [] => s
  if digits = [] then none
  else
    match digitsValue? radix digits with
    | some v => if v ≤ max then some v else none
    | none => none

/-- Model of Rust's signed `from_str_radix` (the `Integer` impls of
src/internal.rs for `i8`..`i128`/`isize`, with `min`/`max` the type's
bounds): an optional leading `+` or `-`, then one or more digits of the
radix; the resulting signed value must lie within `min..=max`.  (The
stepwise checked subtraction of the negative branch fails exactly when the
final value is below `min`, since the accumulated value only decreases.) -/
def rustFromStrRadixSigned (min max : Int) (s : List Nat) (radix : Nat) :
    Option Int :=
  match s with
  | [] => none
  | c :: rest =>
    if c = 45 then
      if rest = [] then none
      else
        match digitsValue? radix rest with
        | some v => if min ≤ -(v : Int) then some (-(v : Int)) else none
        | none => none
    else
      let digits := if c = 43 then rest else c :: rest
      if digits = [] then none
      else
        match digitsValue? radix digits with
        | some v => if (v : Int) ≤ max then some (v : Int) else none
        | none => none

/-- `str::parse::<usize>()` as used for the block length: decimal
`from_str_radix` at the `usize` bounds. -/
def parseUsize (s : List Nat) : Option Nat :=
  rustFromStrRadixUnsigned usizeMax s 10

/-- `Decoder::decode_arbitrary_block` of src/decode/arbitrary_block.rs (also
`decode_arbitrary_block` of src/decode.rs): mandatory `#`; a digit
`'1'..='9'` selects the definite form (that many length digits into a 9-byte
scratch buffer, parse the length, copy that many raw bytes, then one
terminator byte through `end_with`); `'0'` selects the indefinite form. -/
def decodeArbitraryBlock (st : DecodeState) :
    List Nat → Except DecodeError (List Nat × DecodeState × List Nat)
  | [] => Except.error DecodeError.UnexpectedEnd
  | b :: rest =>
    if b = byteHash then
      match rest with
      | [] => Except.error DecodeError.UnexpectedEnd
      | c :: rest' =>
        if 49 ≤ c && c ≤ 57 then
          match readBlockLengthDigits (c - 48) (ArrayBuffer.new 9) rest' with
          | Except.ok (buf, rest'') =>
            match parseUsize buf.written with
            | some blockSize =>
              match readBlockBytes blockSize rest'' with
              | Except.ok (blk, rest₃) =>
                match rest₃ with
                | [] => Except.error DecodeError.UnexpectedEnd
                | t :: rest₄ =>
                  match endWithState st t with
                  | Except.ok st' => Except.ok (blk, st', rest₄)
                  | Except.error e => Except.error e
              | Except.error e => Except.error e
            | none => Except.error DecodeError.Parse
          | Except.error e => Except.error e
        else if c = 48 then indefiniteBlockLoop st [] rest'
        else Except.error DecodeError.Parse
    else Except.error DecodeError.Parse

/-- Encode errors, from `EncodeError` in src/encode.rs. -/
inductive EncodeError where
  | NonAsciiString
  | InvalidCharacterData
  | BlockSizeOverflow (len : Nat)
  | InvalidEncodeState
deriving DecidableEq, Repr

/-- Equality of `Except` values is decidable componentwise. -/
instance instDecidableEqExcept {ε α : Type} [DecidableEq ε] [DecidableEq α] :
    DecidableEq (Except ε α) := fun x y =>
  match x, y with
  | Except.ok a, Except.ok b =>
    if h : a = b then Decidable.isTrue (congrArg Except.ok h)
    else Decidable.isFalse (fun hh => h (Except.ok.inj hh))
  | Except.error a, Except.error b =>
    if h : a = b then Decidable.isTrue (congrArg Except.error h)
    else Decidable.isFalse (fun hh => h (Except.error.inj hh))
  | Except.ok _, Except.error _ => Decidable.isFalse (fun hh => Except.noConfusion hh)
  | Except.error _, Except.ok _ => Decidable.isFalse (fun hh => Except.noConfusion hh)

/-- Base-10 digits of `n`, least significant first (`[]` for zero), with
enough `fuel` (any `fuel ≥ n` suffices). -/
def natDigitsAux : Nat → Nat → List Nat
  | _, 0 => []
  | 0, _ + 1 => []
  | fuel + 1, n + 1 => ((n + 1) % 10) :: natDigitsAux fuel ((n + 1) / 10)

/-- Rust's `Display` for the unsigned integers: the decimal digits, most
significant first (`"0"` for zero). -/
def natDecimalDigits (n : Nat) : List Nat :=
  if n = 0 then [48] else (natDigitsAux n n).reverse.map (fun d => d + 48)

/-- Rust's `Display` for the signed integers: a `-` before the decimal
digits of the absolute value when negative. -/
def intDecimalDigits (v : Int) : List Nat :=
  if v < 0 then 45 :: natDecimalDigits v.natAbs else natDecimalDigits v.toNat

/-- `Encoder::encode_boolean` of src/encode.rs: the single byte
`'1'`/`'0'`. -/
def encodeBoolean (v : Bool) : List Nat :=
  if v then [49] else [48]

/-- `Encoder::encode_numeric_integer` of src/encode.rs: format the decimal
text (the `display` argument, produced by the integer's `Display`) into an
`ArrayBuffer<32>` and write the buffer contents to the sink.  The source
debug-asserts that the write into the buffer succeeded; the `Unit` error is
that assertion failing (`ArrayBufferFull`). -/
def encodeNumericInteger (display : List Nat) : Except Unit (List Nat) :=
  ((ArrayBuffer.new 32).pushAll display).map (fun buf => buf.written)

/-- `Encoder::encode_numeric_float` of src/encode.rs, generic over the
`Float` trait of src/internal.rs (carried as the three predicates plus the
`{:E}` formatter): finite values are formatted in uppercase exponential
notation into an `ArrayBuffer<64>`; NaN is the character data `NAN`;
infinities are `INF` / `NINF`. -/
def encodeNumericFloat {α : Type} (isFinite isNan isSignPositive : α → Bool)
    (fmtUpperExp : α → List Nat) (v : α) : Except Unit (List Nat) :=
  if isFinite v then
    ((ArrayBuffer.new 64).pushAll (fmtUpperExp v)).map (fun buf => buf.written)
  else if isNan v then Except.ok [78, 65, 78]
  else if isSignPositive v then Except.ok [73, 78, 70]
  else Except.ok [78, 73, 78, 70]

/-- `f32::INFINITY` through the `Float` trait of src/internal.rs, for
instantiating the generic float encoder at one concrete IEEE 754 value (the
one-point type `Unit` stands for the single value `+∞`): infinity is not
finite. -/
def f32InfIsFinite : Unit → Bool := fun _ => false

/-- `f32::INFINITY` is not NaN. -/
def f32InfIsNan : Unit → Bool := fun _ => false

/-- `f32::INFINITY` is sign-positive. -/
def f32InfIsSignPositive : Unit → Bool := fun _ => true

/-- The `{:E}` formatter at `+∞`; never consulted, because
`encode_numeric_float` formats only finite values. -/
def f32InfFmtUpperExp : Unit → List Nat := fun _ => []

/-- The chunking of `Encoder::encode_string` (src/encode.rs): split the
string bytes on `"` (as Rust's `slice::split` does, yielding at least one
chunk, with empty chunks around consecutive or terminal quotes). -/
def splitOnQuote : List Nat → List (List Nat)
  | [] => [[]]
  | b :: rest =>
    if b = byteQuote then [] :: splitOnQuote rest
    else
      match splitOnQuote rest with
      | c :: cs => (b :: c) :: cs
      | [] => [[b]]

/-- The write loop of `Encoder::encode_string`: write each chunk, with a
doubled `""` between consecutive chunks. -/
def joinEscapedQuotes : List (List Nat) → List Nat
  | [] => []
  | [c] => c
  | c :: cs => c ++ [byteQuote, byteQuote] ++ joinEscapedQuotes cs

/-- All bytes ASCII (`u8::is_ascii`). -/
def allAscii (s : List Nat) : Bool :=
  s.all (fun b => b ≤ 127)

/-- `Encoder::encode_string` of src/encode.rs: reject non-ASCII input, else
wrap in quotes with every embedded quote doubled. -/
def encodeString (s : List Nat) : Except EncodeError (List Nat) :=
  if allAscii s then
    Except.ok (byteQuote :: (joinEscapedQuotes (splitOnQuote s) ++ [byteQuote]))
  else Except.error EncodeError.NonAsciiString

/-- `Encoder::encode_definite_block_header` of src/encode.rs: write
`#0<len>` into an `ArrayBuffer<11>` (failure of that write is
`BlockSizeOverflow`), then patch the second byte to ASCII `'0' +` the number
of length digits. -/
def encodeDefiniteBlockHeader (len : Nat) : Except EncodeError (List Nat) :=
  match (ArrayBuffer.new 11).pushAll ([byteHash, 48] ++ natDecimalDigits len) with
  | Except.ok buf =>
    Except.ok (buf.written.set 1 (48 + (buf.written.length - 2)))
  | Except.error _ => Except.error (EncodeError.BlockSizeOverflow len)

/-- `Encoder::encode_definite_block` of src/encode.rs: the header declaring
the data length, then the raw bytes. -/
def encodeDefiniteBlock (data : List Nat) : Except EncodeError (List Nat) :=
  match encodeDefiniteBlockHeader data.length with
  | Except.ok header => Except.ok (header ++ data)
  | Except.error e => Except.error e

/-- A token decoder (on state and unread bytes) lifted back to a `Decoder`
operation: afterwards the peek buffer is empty, since token decoders only
ever `read_byte`. -/
def Decoder.runToken {α : Type}
    (tok : DecodeState → List Nat →
      Except DecodeError (α × DecodeState × List Nat))
    (d : Decoder) : Except DecodeError (α × Decoder) :=
  match tok d.state d.input with
  | Except.ok (v, st, rest) =>
    Except.ok (v, { source := rest, state := st, peeked := none })
  | Except.error e => Except.error e

/-- The `ResponseData` impl for `bool` (src/response_data.rs):
`begin_response_data` then `decode_boolean`. -/
def boolResponseData (d : Decoder) : Except DecodeError (Bool × Decoder) :=
  match d.beginResponseData with
  | (Except.ok _, d') => Decoder.runToken decodeBoolean d'
  | (Except.error e, _) => Except.error e

/-- The decode loop of the `ResponseData` impl for `ResponseList<T>`
(src/response_data.rs): decode one element, then stop if the decoder
`is_at_end`, else loop.  `elem` is the element type's `ResponseData::decode`;
`fuel` bounds the iteration count (the Rust loop has no bound of its own),
and `none` means the loop was still running when the fuel ran out. -/
def responseListLoop {α : Type}
    (elem : Decoder → Except DecodeError (α × Decoder)) (acc : List α) :
    Nat → Decoder → Option (Except DecodeError (List α × Decoder))
  | 0, _ => none
  | fuel + 1, d =>
    match elem d with
    | Except.error e => some (Except.error e)
    | Except.ok (a, d') =>
      if d'.isAtEnd then some (Except.ok (acc ++ [a], d'))
      else responseListLoop elem (acc ++ [a]) fuel d'

/-- `<ResponseList<T> as ResponseData>::decode` of src/response_data.rs. -/
def responseListDecode {α : Type}
    (elem : Decoder → Except DecodeError (α × Decoder)) (fuel : Nat)
    (d : Decoder) : Option (Except DecodeError (List α × Decoder)) :=
  responseListLoop elem [] fuel d

/-- The numeric value denoted by a most-significant-first string of decimal
digit bytes. -/
def decimalValue (s : List Nat) : Nat :=
  s.foldl (fun a b => a * 10 + (b - 48)) 0

/-! ### Helper lemmas -/

theorem endWithState_data_of_ne (b : Nat) (h1 : b ≠ byteLF)
    (h2 : b ≠ byteSemicolon) (h3 : b ≠ byteComma) :
    endWithState DecodeState.Data b =
      Except.error (DecodeError.InvalidDecodeState DecodeState.Data) := by
  simp [endWithState, h1, h2, h3]

theorem findNonWhitespace_append (ws : List Nat) (b : Nat) (rest : List Nat)
    (hws : ∀ x ∈ ws, isWhitespace x = true) (hb : isWhitespace b = false) :
    findNonWhitespace (ws ++ b :: rest) = Except.ok (b, rest) := by
  induction ws with
  | nil => simp [findNonWhitespace, hb]
  | cons w ws ih =>
    have hw : isWhitespace w = true := hws w (by simp)
    simp only [List.cons_append, findNonWhitespace, hw, if_true]
    exact ih (fun x hx => hws x (by simp [hx]))

theorem digitInRadix_ten_of_isDigit (b : Nat) (h : isDigit b = true) :
    digitInRadix 10 b = some (b - 48) := by
  simp only [isDigit, Bool.and_eq_true, decide_eq_true_eq] at h
  simp only [digitInRadix, asciiDigitValue]
  rw [if_pos (by simp; omega)]
  show (if b - 48 < 10 then some (b - 48) else none) = some (b - 48)
  rw [if_pos (by omega)]

theorem digitsValue?_go (ds : List Nat) :
    ∀ a : Nat, (∀ x ∈ ds, isDigit x = true) →
      ds.foldl
        (fun acc b =>
          match acc, digitInRadix 10 b with
          | some a, some v => some (a * 10 + v)
          | _, _ => none)
        (some a) = some (ds.foldl (fun a b => a * 10 + (b - 48)) a) := by
  induction ds with
  | nil => intro a _; rfl
  | cons d ds ih =>
    intro a h
    have hd := digitInRadix_ten_of_isDigit d (h d (by simp))
    simp only [List.foldl_cons, hd]
    exact ih (a * 10 + (d - 48)) (fun x hx => h x (by simp [hx]))

theorem digitsValue?_eq_decimalValue (ds : List Nat)
    (h : ∀ x ∈ ds, isDigit x = true) :
    digitsValue? 10 ds = some (decimalValue ds) :=
  digitsValue?_go ds 0 h

theorem decimalValue_go_lt (ds : List Nat) :
    ∀ a : Nat, (∀ x ∈ ds, isDigit x = true) →
      ds.foldl (fun a b => a * 10 + (b - 48)) a < (a + 1) * 10 ^ ds.length := by
  induction ds with
  | nil => intro a _; simp
  | cons d ds ih =>
    intro a h
    have hd : d ≤ 57 := by
      have := h d (by simp)
      simp only [isDigit, Bool.and_eq_true, decide_eq_true_eq] at this
      omega
    have step := ih (a * 10 + (d - 48)) (fun x hx => h x (by simp [hx]))
    calc (d :: ds).foldl (fun a b => a * 10 + (b - 48)) a
        = ds.foldl (fun a b => a * 10 + (b - 48)) (a * 10 + (d - 48)) := by
          simp
      _ < (a * 10 + (d - 48) + 1) * 10 ^ ds.length := step
      _ ≤ ((a + 1) * 10) * 10 ^ ds.length := by
          have : a * 10 + (d - 48) + 1 ≤ (a + 1) * 10 := by omega
          exact Nat.mul_le_mul_right _ this
      _ = (a + 1) * 10 ^ (d :: ds).length := by
          simp [pow_succ]; ring

theorem decimalValue_lt (ds : List Nat) (h : ∀ x ∈ ds, isDigit x = true) :
    decimalValue ds < 10 ^ ds.length := by
  have := decimalValue_go_lt ds 0 h
  simpa [decimalValue] using this

theorem rustFromStrRadixUnsigned_digits (max : Nat) (ds : List Nat)
    (hne : ds ≠ []) (hd : ∀ x ∈ ds, isDigit x = true) :
    rustFromStrRadixUnsigned max ds 10 =
      if decimalValue ds ≤ max then some (decimalValue ds) else none := by
  obtain ⟨d1, ds', rfl⟩ : ∃ a l, ds = a :: l := by
    cases ds with
    | nil => exact absurd rfl hne
    | cons a l => exact ⟨a, l, rfl⟩
  have h1 : isDigit d1 = true := hd d1 (by simp)
  have hne43 : (d1 = 43) = False := by
    simp only [isDigit, Bool.and_eq_true, decide_eq_true_eq] at h1
    simp; omega
  simp only [rustFromStrRadixUnsigned, hne43, if_false]
  rw [if_neg (by simp)]
  rw [digitsValue?_eq_decimalValue (d1 :: ds') hd]

/-- The accumulate loop of `decode_numeric_integer`, run over a full digit
string followed by a non-digit byte: the buffer collects the digits and the
non-digit byte is handed to `end_with`. -/
theorem decodeIntLoop_run {α : Type} (validDigit : Nat → Bool) (radix : Nat)
    (f : List Nat → Nat → Option α) (ds : List Nat) :
    ∀ (buf : List Nat) (st : DecodeState) (b : Nat) (rest : List Nat),
      (∀ x ∈ ds, validDigit x = true) → validDigit b = false →
      decodeIntLoop validDigit radix f buf st (ds ++ b :: rest) =
        match endWithState st b with
        | Except.ok st' =>
          match f (buf ++ ds) radix with
          | some v => Except.ok (v, st', rest)
          | none => Except.error DecodeError.Parse
        | Except.error e => Except.error e := by
  induction ds with
  | nil =>
    intro buf st b rest _ hb
    simp only [List.nil_append, decodeIntLoop, hb, Bool.false_eq_true,
      if_false, List.append_nil]
  | cons d ds ih =>
    intro buf st b rest hds hb
    have hd : validDigit d = true := hds d (by simp)
    simp only [List.cons_append, decodeIntLoop, hd, if_true, List.append_eq]
    rw [ih (buf ++ [d]) st b rest (fun x hx => hds x (by simp [hx])) hb]
    simp

/-- The entry of `decode_numeric_integer` on a decimal digit string: the
first byte is a digit, so the decimal loop runs with it as the initial
buffer. -/
theorem decodeNumericInteger_digits {α : Type}
    (f : List Nat → Nat → Option α) (st : DecodeState) (d1 : Nat)
    (ds : List Nat) (b : Nat) (rest : List Nat) (h1 : isDigit d1 = true)
    (hds : ∀ x ∈ ds, isDigit x = true) (hb : isDigit b = false) :
    decodeNumericInteger f st ((d1 :: ds) ++ b :: rest) =
      match endWithState st b with
      | Except.ok st' =>
        match f (d1 :: ds) 10 with
        | some v => Except.ok (v, st', rest)
        | none => Except.error DecodeError.Parse
      | Except.error e => Except.error e := by
  have hnum : 48 ≤ d1 ∧ d1 ≤ 57 := by
    simpa [isDigit] using h1
  simp only [List.cons_append, decodeNumericInteger]
  rw [if_neg (by simp; omega)]
  rw [if_neg (by simp [byteHash]; omega)]
  rw [if_pos h1]
  rw [decodeIntLoop_run isDigit 10 f ds [d1] st b rest hds hb]
  simp

theorem endWithState_ok_cases (t : Nat) (st' : DecodeState)
    (h : endWithState DecodeState.Data t = Except.ok st') :
    t = 10 ∨ t = 59 ∨ t = 44 := by
  simp only [endWithState, byteLF, byteSemicolon, byteComma] at h
  split_ifs at h with h1 h2 h3
  · exact Or.inl h1
  · exact Or.inr (Or.inl h2)
  · exact Or.inr (Or.inr h3)

theorem isDigit_false_of_terminator (t : Nat) (st' : DecodeState)
    (h : endWithState DecodeState.Data t = Except.ok st') :
    isDigit t = false := by
  rcases endWithState_ok_cases t st' h with rfl | rfl | rfl <;> decide

theorem digitsValue?_none_absorb (radix : Nat) (l : List Nat) :
    l.foldl
      (fun acc b =>
        match acc, digitInRadix radix b with
        | some a, some v => some (a * radix + v)
        | _, _ => none)
      none = none := by
  induction l with
  | nil => rfl
  | cons d l ih => simpa using ih

theorem rustFromStrRadixUnsigned_minus (max : Nat) (ds : List Nat) :
    rustFromStrRadixUnsigned max (45 :: ds) 10 = none := by
  simp only [rustFromStrRadixUnsigned]
  rw [show (if (45 : Nat) = 43 then ds else 45 :: ds) = 45 :: ds from
        if_neg (by decide)]
  rw [if_neg (by simp)]
  have h45 : digitInRadix 10 45 = none := by decide
  simp only [digitsValue?, List.foldl_cons, h45]
  rw [digitsValue?_none_absorb 10 ds]

/-- The sign-prefixed entry of `decode_numeric_integer`: a `+`/`-` byte with
a mandatory digit after it seeds the decimal loop. -/
theorem decodeNumericInteger_sign {α : Type}
    (f : List Nat → Nat → Option α) (st : DecodeState) (s d1 : Nat)
    (ds : List Nat) (b : Nat) (rest : List Nat) (hs : s = 43 ∨ s = 45)
    (h1 : isDigit d1 = true) (hds : ∀ x ∈ ds, isDigit x = true)
    (hb : isDigit b = false) :
    decodeNumericInteger f st ((s :: d1 :: ds) ++ b :: rest) =
      match endWithState st b with
      | Except.ok st' =>
        match f (s :: d1 :: ds) 10 with
        | some v => Except.ok (v, st', rest)
        | none => Except.error DecodeError.Parse
      | Except.error e => Except.error e := by
  simp only [List.cons_append, decodeNumericInteger]
  rw [if_pos (by rcases hs with rfl | rfl <;> simp)]
  rw [if_pos h1]
  rw [decodeIntLoop_run isDigit 10 f ds [s, d1] st b rest hds hb]
  simp

/-! ### C2 — `end_with` from `Data` -/

/-- C2 counterexample: at the concrete non-terminator byte `0x58` (`'X'`),
`end_with` from `Data` fails with the `InvalidDecodeState` caller-sequencing
error (carrying only the state, not the byte), contradicting the claim that
such a byte is reported as a data/grammar error distinct from
`InvalidDecodeState`. -/
theorem C2_end_with_counterexample :
    endWithState DecodeState.Data 88 =
      Except.error (DecodeError.InvalidDecodeState DecodeState.Data) := rfl

/-- C2 (amended): from `Data`, `end_with` maps `'\n'` to `End`, `';'` to
`MessageUnitExpected` and `','` to `DataExpected`; every other byte fails
with `InvalidDecodeState(Data)` — the same caller/protocol-sequencing error
kind, without the offending byte. -/
theorem C2_end_with_amended :
    endWithState DecodeState.Data byteLF = Except.ok DecodeState.End
    ∧ endWithState DecodeState.Data byteSemicolon =
        Except.ok DecodeState.MessageUnitExpected
    ∧ endWithState DecodeState.Data byteComma =
        Except.ok DecodeState.DataExpected
    ∧ ∀ b : Nat, b ≠ byteLF → b ≠ byteSemicolon → b ≠ byteComma →
        endWithState DecodeState.Data b =
          Except.error (DecodeError.InvalidDecodeState DecodeState.Data) :=
  ⟨rfl, rfl, rfl, fun b h1 h2 h3 => endWithState_data_of_ne b h1 h2 h3⟩

/-- C2 witness: the amended statement applied at the concrete byte `'A'`. -/
theorem C2_end_with_witness :
    endWithState DecodeState.Data 65 =
      Except.error (DecodeError.InvalidDecodeState DecodeState.Data) :=
  C2_end_with_amended.2.2.2 65 (by decide) (by decide) (by decide)

/-! ### C3 — mandatory pieces of the NR2/NR3 float grammar -/

/-- C3: for every target float type (every `from_str`), `decode_numeric_float`
fails with `Parse` — returning no value — on `".1234\n"` (no integer digit
before the point), on `"42.\n"` (no fraction digit after the mandatory
point), and on `"1.0E3\n"` (no sign after the exponent marker).  In each
case the grammar rejects the input before `from_str` is ever consulted. -/
theorem C3_float_mandatory_pieces {α : Type} (fromStr : List Nat → Option α) :
    decodeNumericFloat fromStr DecodeState.Data [46, 49, 50, 51, 52, 10] =
      Except.error DecodeError.Parse
    ∧ decodeNumericFloat fromStr DecodeState.Data [52, 50, 46, 10] =
        Except.error DecodeError.Parse
    ∧ decodeNumericFloat fromStr DecodeState.Data [49, 46, 48, 69, 51, 10] =
        Except.error DecodeError.Parse :=
  ⟨rfl, rfl, rfl⟩

/-- C3 witness: the statement instantiated at a concrete parser (the
always-succeeding one, which still cannot rescue the inputs). -/
theorem C3_float_mandatory_pieces_witness :
    decodeNumericFloat (fun s => some s) DecodeState.Data
      [46, 49, 50, 51, 52, 10] = Except.error DecodeError.Parse
    ∧ decodeNumericFloat (fun s => some s) DecodeState.Data [52, 50, 46, 10] =
        Except.error DecodeError.Parse
    ∧ decodeNumericFloat (fun s => some s) DecodeState.Data
        [49, 46, 48, 69, 51, 10] = Except.error DecodeError.Parse :=
  C3_float_mandatory_pieces (fun s => some s)

theorem readBlockLengthDigits_exact (ds : List Nat) :
    ∀ (buf : ArrayBuffer) (rest : List Nat),
      (∀ x ∈ ds, isDigit x = true) →
      buf.written.length + ds.length ≤ buf.capacity →
      readBlockLengthDigits ds.length buf (ds ++ rest) =
        Except.ok ({ buf with written := buf.written ++ ds }, rest) := by
  induction ds with
  | nil => intro buf rest _ _; simp [readBlockLengthDigits]
  | cons d ds ih =>
    intro buf rest hds hcap
    have hd : isDigit d = true := hds d (by simp)
    have hlt : buf.written.length < buf.capacity := by
      simp at hcap; omega
    simp only [List.length_cons, List.cons_append, readBlockLengthDigits, hd,
      if_true]
    have hpush : buf.push d =
        Except.ok { buf with written := buf.written ++ [d] } := by
      simp [ArrayBuffer.push, hlt]
    rw [hpush]
    show readBlockLengthDigits ds.length
      { buf with written := buf.written ++ [d] } (ds ++ rest) = _
    rw [ih { buf with written := buf.written ++ [d] } rest
      (fun x hx => hds x (by simp [hx])) (by simp at hcap ⊢; omega)]
    simp

theorem readBlockBytes_exact (blk : List Nat) :
    ∀ rest : List Nat,
      readBlockBytes blk.length (blk ++ rest) = Except.ok (blk, rest) := by
  induction blk with
  | nil => intro rest; simp [readBlockBytes]
  | cons b blk ih =>
    intro rest
    simp only [List.length_cons, List.cons_append, readBlockBytes]
    rw [ih rest]

theorem readBlockBytes_short (avail : List Nat) :
    ∀ n : Nat, avail.length < n →
      readBlockBytes n avail = Except.error DecodeError.UnexpectedEnd := by
  induction avail with
  | nil =>
    intro n hn
    cases n with
    | zero => omega
    | succ m => simp [readBlockBytes]
  | cons b rest ih =>
    intro n hn
    cases n with
    | zero => omega
    | succ m =>
      simp only [readBlockBytes]
      rw [ih m (by simp at hn; omega)]

theorem parseUsize_digits (ds : List Nat) (hne : ds ≠ [])
    (hds : ∀ x ∈ ds, isDigit x = true) (hlen : ds.length ≤ 9) :
    parseUsize ds = some (decimalValue ds) := by
  unfold parseUsize
  rw [rustFromStrRadixUnsigned_digits usizeMax ds hne hds]
  rw [if_pos]
  have h1 := decimalValue_lt ds hds
  have h2 : (10 : Nat) ^ ds.length ≤ 10 ^ 9 :=
    Nat.pow_le_pow_right (by norm_num) hlen
  have h3 : (10 : Nat) ^ 9 ≤ usizeMax := by decide
  omega

/-- The definite-length branch of `decode_arbitrary_block`: once the length
digits have been read into the scratch buffer, the rest of the computation is
parse-length, copy, terminate. -/
theorem decodeArbitraryBlock_definite (st : DecodeState) (c : Nat)
    (lenDigits tail : List Nat) (h49 : 49 ≤ c) (h57 : c ≤ 57)
    (hlen : lenDigits.length = c - 48)
    (hdig : ∀ x ∈ lenDigits, isDigit x = true) :
    decodeArbitraryBlock st (byteHash :: c :: (lenDigits ++ tail)) =
      match parseUsize lenDigits with
      | some blockSize =>
        (match readBlockBytes blockSize tail with
         | Except.ok (blk, rest₃) =>
           (match rest₃ with
            | [] => Except.error DecodeError.UnexpectedEnd
            | t :: rest₄ =>
              match endWithState st t with
              | Except.ok st' => Except.ok (blk, st', rest₄)
              | Except.error e => Except.error e)
         | Except.error e => Except.error e)
      | none => Except.error DecodeError.Parse := by
  simp only [decodeArbitraryBlock, if_true]
  rw [if_pos (show (decide (49 ≤ c) && decide (c ≤ 57)) = true by
    simp; omega)]
  have hexact := readBlockLengthDigits_exact lenDigits (ArrayBuffer.new 9) tail
    hdig (by simp [ArrayBuffer.new]; omega)
  rw [hlen] at hexact
  rw [hexact]
  simp [ArrayBuffer.new]

/-! ### C5 — definite-length arbitrary blocks -/

/-- C5: a definite block `#` + N + N length digits + payload copies exactly
the declared number of raw bytes verbatim (no byte is special), then reads
exactly one further byte and applies it through `end_with`; a source
exhausted before the declared payload length fails with `UnexpectedEnd`.
The repo's own examples `"#14ASDF\n"` and `"#0indefinite\n"` decode to
`ASDF` and `indefinite`. -/
theorem C5_arbitrary_block_definite :
    (∀ (c : Nat) (lenDigits blk rest : List Nat) (t : Nat),
      49 ≤ c → c ≤ 57 → lenDigits.length = c - 48 →
      (∀ x ∈ lenDigits, isDigit x = true) →
      blk.length = decimalValue lenDigits →
      decodeArbitraryBlock DecodeState.Data
        (byteHash :: c :: (lenDigits ++ (blk ++ t :: rest))) =
        match endWithState DecodeState.Data t with
        | Except.ok st' => Except.ok (blk, st', rest)
        | Except.error e => Except.error e)
    ∧ (∀ (c : Nat) (lenDigits avail : List Nat),
      49 ≤ c → c ≤ 57 → lenDigits.length = c - 48 →
      (∀ x ∈ lenDigits, isDigit x = true) →
      avail.length < decimalValue lenDigits →
      decodeArbitraryBlock DecodeState.Data
        (byteHash :: c :: (lenDigits ++ avail)) =
        Except.error DecodeError.UnexpectedEnd)
    ∧ decodeArbitraryBlock DecodeState.Data [35, 49, 52, 65, 83, 68, 70, 10] =
        Except.ok ([65, 83, 68, 70], DecodeState.End, [])
    ∧ decodeArbitraryBlock DecodeState.Data
        [35, 48, 105, 110, 100, 101, 102, 105, 110, 105, 116, 101, 10] =
        Except.ok ([105, 110, 100, 101, 102, 105, 110, 105, 116, 101],
          DecodeState.End, []) := by
  refine ⟨?_, ?_, by decide, by decide⟩
  · intro c lenDigits blk rest t h49 h57 hlen hdig hblk
    have hne : lenDigits ≠ [] := by
      intro hnil
      rw [hnil] at hlen
      simp at hlen
      omega
    rw [decodeArbitraryBlock_definite DecodeState.Data c lenDigits
      (blk ++ t :: rest) h49 h57 hlen hdig]
    rw [parseUsize_digits lenDigits hne hdig (by omega)]
    rw [← hblk]
    simp only [readBlockBytes_exact]
  · intro c lenDigits avail h49 h57 hlen hdig hshort
    have hne : lenDigits ≠ [] := by
      intro hnil
      rw [hnil] at hlen
      simp at hlen
      omega
    rw [decodeArbitraryBlock_definite DecodeState.Data c lenDigits avail
      h49 h57 hlen hdig]
    rw [parseUsize_digits lenDigits hne hdig (by omega)]
    simp only [readBlockBytes_short avail (decimalValue lenDigits) hshort]

/-- C5 witness: the first conjunct applied at `"#14ASDF\n"` and the second at
the truncated `"#14AS"`. -/
theorem C5_arbitrary_block_definite_witness :
    decodeArbitraryBlock DecodeState.Data
      (byteHash :: 49 :: ([52] ++ ([65, 83, 68, 70] ++ 10 :: []))) =
      Except.ok ([65, 83, 68, 70], DecodeState.End, [])
    ∧ decodeArbitraryBlock DecodeState.Data
        (byteHash :: 49 :: ([52] ++ [65, 83])) =
        Except.error DecodeError.UnexpectedEnd := by
  constructor
  · have h := C5_arbitrary_block_definite.1 49 [52] [65, 83, 68, 70] [] 10
      (by decide) (by decide) (by decide) (by decide) (by decide)
    rw [h]
    rfl
  · exact C5_arbitrary_block_definite.2.1 49 [52] [65, 83] (by decide)
      (by decide) (by decide) (by decide) (by decide)

theorem rustFromStrRadixSigned_digits (min max : Int) (ds : List Nat)
    (hne : ds ≠ []) (hds : ∀ x ∈ ds, isDigit x = true) :
    rustFromStrRadixSigned min max ds 10 =
      if (decimalValue ds : Int) ≤ max then some (decimalValue ds : Int)
      else none := by
  obtain ⟨d1, ds', rfl⟩ : ∃ a l, ds = a :: l := by
    cases ds with
    | nil => exact absurd rfl hne
    | cons a l => exact ⟨a, l, rfl⟩
  have h1 : 48 ≤ d1 ∧ d1 ≤ 57 := by
    simpa [isDigit] using hds d1 (by simp)
  simp only [rustFromStrRadixSigned]
  rw [if_neg (by omega)]
  rw [show (if d1 = 43 then ds' else d1 :: ds') = d1 :: ds' from
        if_neg (by omega)]
  rw [if_neg (by simp)]
  rw [digitsValue?_eq_decimalValue (d1 :: ds') hds]

theorem rustFromStrRadixSigned_minus (min max : Int) (ds : List Nat)
    (hne : ds ≠ []) (hds : ∀ x ∈ ds, isDigit x = true) :
    rustFromStrRadixSigned min max (45 :: ds) 10 =
      if min ≤ -(decimalValue ds : Int) then some (-(decimalValue ds : Int))
      else none := by
  show (if ds = [] then none
        else
          match digitsValue? 10 ds with
          | some v => if min ≤ -(v : Int) then some (-(v : Int)) else none
          | none => none) = _
  rw [if_neg hne, digitsValue?_eq_decimalValue ds hds]

/-! ### C6 — integer range errors -/

/-- C6: `decode_numeric_integer` fails with `Parse` — never a wrapped or
truncated value — whenever the decimal literal denotes a value outside the
representable range of the target width: for an unsigned target of any
maximum (the 8/16/32/64/128-bit and `usize` widths), a digit string above
the maximum or any literal with a leading `-`; and for a signed target of
any bounds (the 8/16/32/64/128-bit and `isize` widths), a digit string
above the maximum or a `-`-prefixed digit string below the minimum. -/
theorem C6_integer_overflow_and_sign :
    (∀ (max : Nat) (ds : List Nat) (t : Nat) (rest : List Nat)
       (st' : DecodeState),
      ds ≠ [] → (∀ x ∈ ds, isDigit x = true) →
      endWithState DecodeState.Data t = Except.ok st' →
      max < decimalValue ds →
      decodeNumericInteger (rustFromStrRadixUnsigned max) DecodeState.Data
        (ds ++ t :: rest) = Except.error DecodeError.Parse)
    ∧ (∀ (max : Nat) (ds : List Nat) (t : Nat) (rest : List Nat)
        (st' : DecodeState),
      ds ≠ [] → (∀ x ∈ ds, isDigit x = true) →
      endWithState DecodeState.Data t = Except.ok st' →
      decodeNumericInteger (rustFromStrRadixUnsigned max) DecodeState.Data
        ((45 :: ds) ++ t :: rest) = Except.error DecodeError.Parse)
    ∧ (∀ (min max : Int) (ds : List Nat) (t : Nat) (rest : List Nat)
        (st' : DecodeState),
      ds ≠ [] → (∀ x ∈ ds, isDigit x = true) →
      endWithState DecodeState.Data t = Except.ok st' →
      max < (decimalValue ds : Int) →
      decodeNumericInteger (rustFromStrRadixSigned min max) DecodeState.Data
        (ds ++ t :: rest) = Except.error DecodeError.Parse)
    ∧ (∀ (min max : Int) (ds : List Nat) (t : Nat) (rest : List Nat)
        (st' : DecodeState),
      ds ≠ [] → (∀ x ∈ ds, isDigit x = true) →
      endWithState DecodeState.Data t = Except.ok st' →
      -(decimalValue ds : Int) < min →
      decodeNumericInteger (rustFromStrRadixSigned min max) DecodeState.Data
        ((45 :: ds) ++ t :: rest) = Except.error DecodeError.Parse) := by
  refine ⟨?_, ?_, ?_, ?_⟩
  · intro max ds t rest st' hne hds ht hover
    obtain ⟨d1, ds', rfl⟩ : ∃ a l, ds = a :: l := by
      cases ds with
      | nil => exact absurd rfl hne
      | cons a l => exact ⟨a, l, rfl⟩
    rw [decodeNumericInteger_digits (rustFromStrRadixUnsigned max)
      DecodeState.Data d1 ds' t rest (hds d1 (by simp))
      (fun x hx => hds x (by simp [hx])) (isDigit_false_of_terminator t st' ht)]
    rw [ht, rustFromStrRadixUnsigned_digits max (d1 :: ds') (by simp) hds]
    rw [if_neg (by omega)]
  · intro max ds t rest st' hne hds ht
    obtain ⟨d1, ds', rfl⟩ : ∃ a l, ds = a :: l := by
      cases ds with
      | nil => exact absurd rfl hne
      | cons a l => exact ⟨a, l, rfl⟩
    rw [decodeNumericInteger_sign (rustFromStrRadixUnsigned max)
      DecodeState.Data 45 d1 ds' t rest (Or.inr rfl) (hds d1 (by simp))
      (fun x hx => hds x (by simp [hx])) (isDigit_false_of_terminator t st' ht)]
    rw [ht, rustFromStrRadixUnsigned_minus max (d1 :: ds')]
  · intro min max ds t rest st' hne hds ht hover
    obtain ⟨d1, ds', rfl⟩ : ∃ a l, ds = a :: l := by
      cases ds with
      | nil => exact absurd rfl hne
      | cons a l => exact ⟨a, l, rfl⟩
    rw [decodeNumericInteger_digits (rustFromStrRadixSigned min max)
      DecodeState.Data d1 ds' t rest (hds d1 (by simp))
      (fun x hx => hds x (by simp [hx])) (isDigit_false_of_terminator t st' ht)]
    rw [ht, rustFromStrRadixSigned_digits min max (d1 :: ds') (by simp) hds]
    rw [if_neg (by omega)]
  · intro min max ds t rest st' hne hds ht hunder
    obtain ⟨d1, ds', rfl⟩ : ∃ a l, ds = a :: l := by
      cases ds with
      | nil => exact absurd rfl hne
      | cons a l => exact ⟨a, l, rfl⟩
    rw [decodeNumericInteger_sign (rustFromStrRadixSigned min max)
      DecodeState.Data 45 d1 ds' t rest (Or.inr rfl) (hds d1 (by simp))
      (fun x hx => hds x (by simp [hx])) (isDigit_false_of_terminator t st' ht)]
    rw [ht, rustFromStrRadixSigned_minus min max (d1 :: ds') (by simp) hds]
    rw [if_neg (by omega)]

/-- C6 witness: `"256\n"` and `"-42\n"` into `u8` (maximum 255), and the
source's own `i8` vectors `"128\n"` and `"-129\n"` (bounds −128..127), all
fail with `Parse`. -/
theorem C6_integer_overflow_and_sign_witness :
    decodeNumericInteger (rustFromStrRadixUnsigned 255) DecodeState.Data
      [50, 53, 54, 10] = Except.error DecodeError.Parse
    ∧ decodeNumericInteger (rustFromStrRadixUnsigned 255) DecodeState.Data
        [45, 52, 50, 10] = Except.error DecodeError.Parse
    ∧ decodeNumericInteger (rustFromStrRadixSigned (-128) 127)
        DecodeState.Data [49, 50, 56, 10] = Except.error DecodeError.Parse
    ∧ decodeNumericInteger (rustFromStrRadixSigned (-128) 127)
        DecodeState.Data [45, 49, 50, 57, 10] =
        Except.error DecodeError.Parse :=
  ⟨C6_integer_overflow_and_sign.1 255 [50, 53, 54] 10 [] DecodeState.End
      (by decide) (by decide) (by decide) (by decide),
   C6_integer_overflow_and_sign.2.1 255 [52, 50] 10 [] DecodeState.End
      (by decide) (by decide) (by decide),
   C6_integer_overflow_and_sign.2.2.1 (-128) 127 [49, 50, 56] 10 []
      DecodeState.End (by decide) (by decide) (by decide) (by decide),
   C6_integer_overflow_and_sign.2.2.2 (-128) 127 [49, 50, 57] 10 []
      DecodeState.End (by decide) (by decide) (by decide) (by decide)⟩

/-! ### C8 — string decoding -/

theorem decodeStringLoop_escape (s : List Nat) :
    ∀ (st : DecodeState) (acc tail : List Nat), allAscii s = true →
      decodeStringLoop st acc (escapeBytes s ++ tail) =
        decodeStringLoop st (acc ++ s) tail := by
  induction s with
  | nil => intro st acc tail _; simp [escapeBytes]
  | cons b bs ih =>
    intro st acc tail hascii
    have hascii' : allAscii bs = true := by
      simp only [allAscii, List.all_cons, Bool.and_eq_true] at hascii
      exact hascii.2
    by_cases hq : b = byteQuote
    · subst hq
      have step : decodeStringLoop st acc
          (escapeBytes (byteQuote :: bs) ++ tail) =
          decodeStringLoop st (acc ++ [byteQuote]) (escapeBytes bs ++ tail) := by
        simp only [escapeBytes, if_pos rfl, List.cons_append]
        rfl
      rw [step, ih st (acc ++ [byteQuote]) tail hascii']
      simp
    · have hb : b ≤ 127 := by
        simp only [allAscii, List.all_cons, Bool.and_eq_true,
          decide_eq_true_eq] at hascii
        exact hascii.1
      have step : decodeStringLoop st acc (escapeBytes (b :: bs) ++ tail) =
          decodeStringLoop st (acc ++ [b]) (escapeBytes bs ++ tail) := by
        simp only [escapeBytes, if_neg hq, List.cons_append]
        rw [decodeStringLoop.eq_def]
        simp only [if_neg hq, if_pos hb]
      rw [step, ih st (acc ++ [b]) tail hascii']
      simp

theorem escapeBytes_eq_self (s : List Nat) (h : ∀ x ∈ s, x ≠ byteQuote) :
    escapeBytes s = s := by
  induction s with
  | nil => rfl
  | cons b bs ih =>
    simp only [escapeBytes, if_neg (h b (by simp))]
    rw [ih (fun x hx => h x (by simp [hx]))]

/-- `decode_string` on a well-formed escaped body: opening quote, the body
with every inner quote doubled, the closing quote, and a terminator. -/
theorem decodeString_escaped (s : List Nat) (t : Nat) (rest : List Nat)
    (st' : DecodeState) (hascii : allAscii s = true) (ht : t ≠ byteQuote)
    (hend : endWithState DecodeState.Data t = Except.ok st') :
    decodeString DecodeState.Data
      (byteQuote :: (escapeBytes s ++ byteQuote :: t :: rest)) =
      Except.ok (s, st', rest) := by
  show decodeStringLoop DecodeState.Data []
    (escapeBytes s ++ byteQuote :: t :: rest) = _
  rw [decodeStringLoop_escape s DecodeState.Data [] (byteQuote :: t :: rest)
    hascii]
  rw [show decodeStringLoop DecodeState.Data ([] ++ s)
      (byteQuote :: t :: rest) =
      (if t = byteQuote then
        decodeStringLoop DecodeState.Data (([] ++ s) ++ [byteQuote]) rest
      else
        match endWithState DecodeState.Data t with
        | Except.ok st' => Except.ok (([] ++ s), st', rest)
        | Except.error e => Except.error e) from rfl]
  rw [if_neg ht, hend]
  simp

/-- C8: `decode_string` rejects a missing opening quote with `Parse`; the
body bytes are copied verbatim with every doubled `""` collapsed to one `"`
(stated for an arbitrary ASCII body through its on-wire escaped form, and at
the concrete input `'""""\n'`); and a source exhausted before the closing
quote and its terminator — with or without the closing quote itself — fails
with `UnexpectedEnd`. -/
theorem C8_decode_string :
    (∀ (b : Nat) (rest : List Nat), b ≠ byteQuote →
      decodeString DecodeState.Data (b :: rest) =
        Except.error DecodeError.Parse)
    ∧ (∀ (s : List Nat) (t : Nat) (rest : List Nat) (st' : DecodeState),
      allAscii s = true → t ≠ byteQuote →
      endWithState DecodeState.Data t = Except.ok st' →
      decodeString DecodeState.Data
        (byteQuote :: (escapeBytes s ++ byteQuote :: t :: rest)) =
        Except.ok (s, st', rest))
    ∧ decodeString DecodeState.Data [34, 34, 34, 34, 10] =
        Except.ok ([34], DecodeState.End, [])
    ∧ (∀ s : List Nat, allAscii s = true → (∀ x ∈ s, x ≠ byteQuote) →
      decodeString DecodeState.Data (byteQuote :: s) =
        Except.error DecodeError.UnexpectedEnd
      ∧ decodeString DecodeState.Data (byteQuote :: (s ++ [byteQuote])) =
          Except.error DecodeError.UnexpectedEnd) := by
  refine ⟨?_, ?_, by decide, ?_⟩
  · intro b rest hb
    simp only [decodeString]
    rw [if_neg hb]
  · intro s t rest st' hascii ht hend
    exact decodeString_escaped s t rest st' hascii ht hend
  · intro s hascii hnq
    constructor
    · show decodeStringLoop DecodeState.Data [] s = _
      have h := decodeStringLoop_escape s DecodeState.Data [] [] hascii
      rw [escapeBytes_eq_self s hnq, List.append_nil] at h
      rw [h]
      rfl
    · show decodeStringLoop DecodeState.Data [] (s ++ [byteQuote]) = _
      have h := decodeStringLoop_escape s DecodeState.Data [] [byteQuote]
        hascii
      rw [escapeBytes_eq_self s hnq] at h
      rw [h]
      rfl

/-- C8 witness: the escaped-body conjunct applied at the body `A"B`
(on the wire `"A""B"` + terminator), and the unterminated conjunct at
`"broken\n` (the copy loop treats the `\n` as an ordinary ASCII byte and
then hits the end of the source). -/
theorem C8_decode_string_witness :
    decodeString DecodeState.Data
      (byteQuote :: (escapeBytes [65, 34, 66] ++ byteQuote :: 10 :: [])) =
      Except.ok ([65, 34, 66], DecodeState.End, [])
    ∧ decodeString DecodeState.Data
        (byteQuote :: [98, 114, 111, 107, 101, 110, 10]) =
        Except.error DecodeError.UnexpectedEnd :=
  ⟨C8_decode_string.2.1 [65, 34, 66] 10 [] DecodeState.End (by decide)
      (by decide) (by decide),
   (C8_decode_string.2.2.2 [98, 114, 111, 107, 101, 110, 10] (by decide)
      (by decide)).1⟩

/-! ### C7 — `begin_response_data` -/

/-- C7: `begin_response_data` succeeds exactly from `Initial`, `DataExpected`
and `MessageUnitExpected` — consuming every leading IEEE 488.2 whitespace
byte, buffering the first non-whitespace byte as the next byte to read, and
moving to `Data` — while from `Data` or `End` it fails with
`InvalidDecodeState` and consumes nothing; the whitespace set is exactly
`0x00..0x09` together with `0x0B..0x20` (never `0x0A`). -/
theorem C7_begin_response_data :
    (∀ (d : Decoder) (ws : List Nat) (b : Nat) (rest : List Nat),
      (d.state = DecodeState.Initial ∨ d.state = DecodeState.DataExpected
        ∨ d.state = DecodeState.MessageUnitExpected) →
      d.input = ws ++ b :: rest →
      (∀ x ∈ ws, isWhitespace x = true) →
      isWhitespace b = false →
      d.beginResponseData =
        (Except.ok (),
         { source := rest, state := DecodeState.Data, peeked := some b }))
    ∧ (∀ d : Decoder,
        d.state = DecodeState.Data ∨ d.state = DecodeState.End →
        d.beginResponseData =
          (Except.error (DecodeError.InvalidDecodeState d.state), d))
    ∧ isWhitespace 10 = false
    ∧ (∀ x : Nat, isWhitespace x = true ↔ x ≤ 9 ∨ (11 ≤ x ∧ x ≤ 32)) := by
  refine ⟨?_, ?_, rfl, ?_⟩
  · rintro ⟨src, st, pk⟩ ws b rest hst hinput hws hb
    have hskip : Decoder.skipWhitespace ⟨src, st, pk⟩ =
        (Except.ok ⟨rest, st, some b⟩, ⟨rest, st, some b⟩) := by
      cases pk with
      | some p =>
        simp only [Decoder.input, List.cons_append, List.nil_append] at hinput
        cases ws with
        | nil =>
          simp only [List.nil_append, List.cons.injEq] at hinput
          obtain ⟨hp, hsrc⟩ := hinput
          subst hp; subst hsrc
          simp [Decoder.skipWhitespace, hb]
        | cons w ws' =>
          simp only [List.cons_append, List.cons.injEq] at hinput
          obtain ⟨hp, hsrc⟩ := hinput
          subst hp; subst hsrc
          have hw : isWhitespace p = true := hws p (by simp)
          simp [Decoder.skipWhitespace, hw,
            findNonWhitespace_append ws' b rest
              (fun x hx => hws x (by simp [hx])) hb]
      | none =>
        simp only [Decoder.input, List.nil_append] at hinput
        subst hinput
        simp [Decoder.skipWhitespace, findNonWhitespace_append ws b rest hws hb]
    rcases hst with h | h | h <;> (subst h; simp [Decoder.beginResponseData, hskip])
  · rintro ⟨src, st, pk⟩ (h | h) <;> (subst h; rfl)
  · intro x
    simp [isWhitespace]

/-- C7 witness: from `Initial` on the source `" A\n"` the whitespace byte is
skipped, `'A'` is buffered and the state becomes `Data`; from `End` the call
is rejected unchanged. -/
theorem C7_begin_response_data_witness :
    (Decoder.new [32, 65, 10]).beginResponseData =
      (Except.ok (),
       { source := [10], state := DecodeState.Data, peeked := some 65 })
    ∧ ({ source := [], state := DecodeState.End, peeked := none } :
        Decoder).beginResponseData =
      (Except.error (DecodeError.InvalidDecodeState DecodeState.End),
       { source := [], state := DecodeState.End, peeked := none }) :=
  ⟨C7_begin_response_data.1 (Decoder.new [32, 65, 10]) [32] 65 [10]
      (Or.inl rfl) rfl (by decide) (by decide),
   C7_begin_response_data.2.1 _ (Or.inr rfl)⟩

/-! ### C9 — `ResponseList` never decodes an empty list -/

theorem responseListLoop_length {α : Type}
    (elem : Decoder → Except DecodeError (α × Decoder)) :
    ∀ (fuel : Nat) (acc : List α) (d : Decoder) (l : List α) (d' : Decoder),
      responseListLoop elem acc fuel d = some (Except.ok (l, d')) →
      acc.length < l.length := by
  intro fuel
  induction fuel with
  | zero => intro acc d l d' h; simp [responseListLoop] at h
  | succ fuel ih =>
    intro acc d l d' h
    simp only [responseListLoop] at h
    cases helem : elem d with
    | error e => rw [helem] at h; simp at h
    | ok p =>
      obtain ⟨a, d₁⟩ := p
      rw [helem] at h
      by_cases hend : d₁.isAtEnd = true
      · simp only [hend, if_true, Option.some.injEq] at h
        have hl : acc ++ [a] = l := congrArg Prod.fst (Except.ok.inj h)
        rw [← hl]
        simp
      · simp only [hend] at h
        rw [if_neg (by simp [hend])] at h
        have := ih (acc ++ [a]) d₁ l d' h
        simp at this
        omega

/-- C9: the `ResponseList` decode loop pushes an element before checking
`is_at_end`, so whenever it returns a list at all the list is non-empty —
for every element decoder; and on a response consisting of the terminator
alone it returns an error (here with `bool` elements: a `Parse` error)
rather than an empty `ResponseList`. -/
theorem C9_response_list_nonempty :
    (∀ (α : Type) (elem : Decoder → Except DecodeError (α × Decoder))
       (fuel : Nat) (d : Decoder) (l : List α) (d' : Decoder),
       responseListDecode elem fuel d = some (Except.ok (l, d')) → l ≠ [])
    ∧ responseListDecode boolResponseData 2 (Decoder.new [byteLF]) =
        some (Except.error DecodeError.Parse) := by
  constructor
  · intro α elem fuel d l d' h
    have hlen := responseListLoop_length elem fuel [] d l d' h
    intro hl
    subst hl
    simp at hlen
  · decide

/-- C9 witness: a concrete run (`"1\n"` decoded as a list of booleans)
returning the non-empty list `[true]`, the non-emptiness obtained from the
theorem. -/
theorem C9_response_list_nonempty_witness :
    responseListDecode boolResponseData 2 (Decoder.new [49, 10]) =
      some (Except.ok ([true],
        { source := [], state := DecodeState.End, peeked := none }))
    ∧ ([true] : List Bool) ≠ [] :=
  ⟨by decide,
   C9_response_list_nonempty.1 Bool boolResponseData 2 (Decoder.new [49, 10])
     [true] { source := [], state := DecodeState.End, peeked := none }
     (by decide)⟩

/-! ### C10 — the length-prefix buffer never overflows -/

theorem endWithState_error_shape (st : DecodeState) (b : Nat)
    (e : DecodeError) (h : endWithState st b = Except.error e) :
    ∃ s, e = DecodeError.InvalidDecodeState s := by
  cases st with
  | Data =>
    simp only [endWithState] at h
    split_ifs at h
    exact ⟨DecodeState.Data, (Except.error.inj h).symm⟩
  | Initial => exact ⟨DecodeState.Initial, (Except.error.inj h).symm⟩
  | DataExpected => exact ⟨DecodeState.DataExpected, (Except.error.inj h).symm⟩
  | MessageUnitExpected =>
    exact ⟨DecodeState.MessageUnitExpected, (Except.error.inj h).symm⟩
  | End => exact ⟨DecodeState.End, (Except.error.inj h).symm⟩

theorem readBlockLengthDigits_no_overflow :
    ∀ (n : Nat) (buf : ArrayBuffer) (input : List Nat),
      buf.written.length + n ≤ buf.capacity →
      readBlockLengthDigits n buf input ≠
        Except.error DecodeError.BufferOverflow := by
  intro n
  induction n with
  | zero => intro buf input _; simp [readBlockLengthDigits]
  | succ n ih =>
    intro buf input h
    cases input with
    | nil => simp [readBlockLengthDigits]
    | cons b rest =>
      simp only [readBlockLengthDigits]
      by_cases hd : isDigit b = true
      · have hlt : buf.written.length < buf.capacity := by omega
        have hpush : buf.push b =
            Except.ok { buf with written := buf.written ++ [b] } := by
          simp [ArrayBuffer.push, hlt]
        rw [if_pos hd, hpush]
        apply ih
        simp
        omega
      · rw [if_neg hd]
        simp

theorem readBlockBytes_no_overflow :
    ∀ (n : Nat) (input : List Nat),
      readBlockBytes n input ≠ Except.error DecodeError.BufferOverflow := by
  intro n
  induction n with
  | zero => intro input; simp [readBlockBytes]
  | succ n ih =>
    intro input
    cases input with
    | nil => simp [readBlockBytes]
    | cons b rest =>
      simp only [readBlockBytes]
      cases hr : readBlockBytes n rest with
      | ok p => simp
      | error e =>
        simp only []
        intro hc
        rw [Except.error.inj hc] at hr
        exact ih rest hr

theorem indefiniteBlockLoop_no_overflow :
    ∀ (input : List Nat) (st : DecodeState) (acc : List Nat),
      indefiniteBlockLoop st acc input ≠
        Except.error DecodeError.BufferOverflow := by
  intro input
  induction input with
  | nil => intro st acc; simp [indefiniteBlockLoop]
  | cons b rest ih =>
    intro st acc
    simp only [indefiniteBlockLoop]
    by_cases hb : b = byteLF
    · rw [if_pos hb]
      cases he : endWithState st b with
      | ok st' => simp
      | error e =>
        simp only []
        intro hc
        obtain ⟨s, hs⟩ := endWithState_error_shape st b e he
        rw [hs] at hc
        exact DecodeError.noConfusion (Except.error.inj hc)
    · rw [if_neg hb]
      exact ih st (acc ++ [b])

/-- C10: on every input, in every state, `decode_arbitrary_block` (with its
always-accepting `Vec<u8>` target) never fails with `BufferOverflow`: the
length-prefix digit count is at most 9 because it comes from a byte matched
against `'1'..='9'`, and the scratch buffer holds 9 bytes, so its guarded
push never hits the overflow branch. -/
theorem C10_length_prefix_buffer_unreachable :
    ∀ (st : DecodeState) (input : List Nat),
      decodeArbitraryBlock st input ≠
        Except.error DecodeError.BufferOverflow := by
  intro st input
  cases input with
  | nil => simp [decodeArbitraryBlock]
  | cons b rest =>
    simp only [decodeArbitraryBlock]
    split
    · -- the `#` branch
      cases rest with
      | nil => simp
      | cons c rest' =>
        simp only []
        split
        · -- definite form, `'1'..='9'`
          rename_i hc
          split
          · -- length digits read
            rename_i buf rest'' hr
            split
            · -- block size parsed
              rename_i blockSize hps
              split
              · -- payload read
                rename_i blk rest₃ hq
                split
                · simp
                · -- a terminator byte follows
                  rename_i t rest₄
                  split
                  · simp
                  · rename_i e he
                    intro hcontra
                    obtain ⟨s, hs⟩ := endWithState_error_shape st t e he
                    rw [hs] at hcontra
                    exact DecodeError.noConfusion (Except.error.inj hcontra)
              · -- payload read failed
                rename_i e hq
                intro hcontra
                rw [Except.error.inj hcontra] at hq
                exact readBlockBytes_no_overflow _ _ hq
            · simp
          · -- length digits failed
            rename_i e hr
            intro hcontra
            rw [Except.error.inj hcontra] at hr
            refine readBlockLengthDigits_no_overflow (c - 48)
              (ArrayBuffer.new 9) rest' ?_ hr
            simp only [Bool.and_eq_true, decide_eq_true_eq] at hc
            simp only [ArrayBuffer.new, List.length_nil]
            omega
        · -- not a definite digit
          split
          · exact indefiniteBlockLoop_no_overflow rest' st []
          · simp
    · simp

/-! ### Decimal formatting lemmas -/

theorem natDigitsAux_foldr :
    ∀ (fuel n : Nat), n ≤ fuel →
      (natDigitsAux fuel n).foldr (fun d a => a * 10 + d) 0 = n := by
  intro fuel
  induction fuel with
  | zero =>
    intro n hn
    have h0 : n = 0 := by omega
    subst h0
    rfl
  | succ fuel ih =>
    intro n hn
    cases n with
    | zero => rfl
    | succ m =>
      simp only [natDigitsAux, List.foldr_cons]
      rw [ih ((m + 1) / 10) (by omega)]
      omega

theorem natDigitsAux_lt_ten :
    ∀ (fuel n d : Nat), d ∈ natDigitsAux fuel n → d < 10 := by
  intro fuel
  induction fuel with
  | zero =>
    intro n d hd
    cases n <;> simp [natDigitsAux] at hd
  | succ fuel ih =>
    intro n d hd
    cases n with
    | zero => simp [natDigitsAux] at hd
    | succ m =>
      simp only [natDigitsAux, List.mem_cons] at hd
      rcases hd with rfl | hd
      · omega
      · exact ih _ d hd

theorem natDigitsAux_length_le :
    ∀ (fuel n k : Nat), n ≤ fuel → n < 10 ^ k →
      (natDigitsAux fuel n).length ≤ k := by
  intro fuel
  induction fuel with
  | zero =>
    intro n k hn _
    have h0 : n = 0 := by omega
    subst h0
    simp [natDigitsAux]
  | succ fuel ih =>
    intro n k hn hk
    cases n with
    | zero => simp [natDigitsAux]
    | succ m =>
      cases k with
      | zero => simp at hk
      | succ k' =>
        simp only [natDigitsAux, List.length_cons]
        have hpow : (10 : Nat) ^ (k' + 1) = 10 ^ k' * 10 := pow_succ 10 k'
        have := ih ((m + 1) / 10) k' (by omega) (by omega)
        omega

theorem natDecimalDigits_isDigit (n : Nat) :
    ∀ x ∈ natDecimalDigits n, isDigit x = true := by
  intro x hx
  unfold natDecimalDigits at hx
  by_cases h : n = 0
  · rw [if_pos h] at hx
    simp at hx
    subst hx
    decide
  · rw [if_neg h] at hx
    simp only [List.mem_map, List.mem_reverse] at hx
    obtain ⟨d, hd, rfl⟩ := hx
    have := natDigitsAux_lt_ten n n d hd
    simp only [isDigit, Bool.and_eq_true, decide_eq_true_eq]
    omega

theorem natDecimalDigits_ne_nil (n : Nat) : natDecimalDigits n ≠ [] := by
  unfold natDecimalDigits
  by_cases h : n = 0
  · rw [if_pos h]; simp
  · rw [if_neg h]
    cases n with
    | zero => exact absurd rfl h
    | succ m => simp [natDigitsAux]

theorem decimalValue_natDecimalDigits (n : Nat) :
    decimalValue (natDecimalDigits n) = n := by
  by_cases h : n = 0
  · subst h; decide
  · unfold natDecimalDigits decimalValue
    rw [if_neg h]
    rw [List.foldl_map]
    have heq : (fun (a d : Nat) => a * 10 + (d + 48 - 48)) =
        fun (a d : Nat) => a * 10 + d := by
      funext a d
      omega
    rw [heq, List.foldl_reverse]
    exact natDigitsAux_foldr n n (le_refl n)

theorem natDecimalDigits_length_le (n k : Nat) (hk : 1 ≤ k)
    (h : n < 10 ^ k) : (natDecimalDigits n).length ≤ k := by
  unfold natDecimalDigits
  by_cases h0 : n = 0
  · rw [if_pos h0]; simpa using hk
  · rw [if_neg h0]
    simp only [List.length_map, List.length_reverse]
    exact natDigitsAux_length_le n n k (le_refl n) h

/-! ### C4 — the 32-byte integer scratch buffer is too small for u128 -/

/-- C4 (code bug): the `u128` value `10^32` is representable (it is below
`2^128`), its decimal text is 33 bytes, and `encode_numeric_integer`'s write
into its 32-byte `ArrayBuffer` fails — the capacity-exhaustion branch the
claim (and the source's own `debug_assert`) calls unreachable is reached,
and the formatted digits are not written to the sink in full.  The buffer
would need 40 bytes (sign + 39 digits) for the widest supported integers. -/
theorem C4_u128_scratch_buffer_exhausted :
    (10 ^ 32 : Nat) < 2 ^ 128
    ∧ (natDecimalDigits (10 ^ 32)).length = 33
    ∧ encodeNumericInteger (natDecimalDigits (10 ^ 32)) =
        Except.error () :=
  ⟨by decide, by decide, by decide⟩

/-! ### Parsing decimal display text back (signed and unsigned) -/

theorem decodeNumericInteger_unsigned_roundtrip (max v : Nat) (hv : v ≤ max) :
    decodeNumericInteger (rustFromStrRadixUnsigned max) DecodeState.Data
      (natDecimalDigits v ++ [byteLF]) =
      Except.ok (v, DecodeState.End, []) := by
  obtain ⟨d1, ds', hds⟩ : ∃ a l, natDecimalDigits v = a :: l := by
    cases hnd : natDecimalDigits v with
    | nil => exact absurd hnd (natDecimalDigits_ne_nil v)
    | cons a l => exact ⟨a, l, rfl⟩
  rw [hds]
  rw [decodeNumericInteger_digits (rustFromStrRadixUnsigned max)
    DecodeState.Data d1 ds' byteLF []
    (natDecimalDigits_isDigit v d1 (by rw [hds]; simp))
    (fun x hx => natDecimalDigits_isDigit v x (by rw [hds]; simp [hx]))
    (by decide)]
  rw [← hds]
  simp only [show endWithState DecodeState.Data byteLF =
      Except.ok DecodeState.End from rfl,
    rustFromStrRadixUnsigned_digits max (natDecimalDigits v)
      (natDecimalDigits_ne_nil v) (natDecimalDigits_isDigit v),
    decimalValue_natDecimalDigits v, if_pos hv]

theorem decodeNumericInteger_signed_roundtrip (min max v : Int)
    (hmin : min ≤ v) (hmax : v ≤ max) :
    decodeNumericInteger (rustFromStrRadixSigned min max) DecodeState.Data
      (intDecimalDigits v ++ [byteLF]) =
      Except.ok (v, DecodeState.End, []) := by
  by_cases hneg : v < 0
  · unfold intDecimalDigits
    rw [if_pos hneg]
    obtain ⟨d1, ds', hds⟩ : ∃ a l, natDecimalDigits v.natAbs = a :: l := by
      cases hnd : natDecimalDigits v.natAbs with
      | nil => exact absurd hnd (natDecimalDigits_ne_nil v.natAbs)
      | cons a l => exact ⟨a, l, rfl⟩
    rw [hds]
    rw [show (45 :: d1 :: ds') ++ [byteLF] = (45 :: d1 :: ds') ++ byteLF :: []
      from rfl]
    rw [decodeNumericInteger_sign (rustFromStrRadixSigned min max)
      DecodeState.Data 45 d1 ds' byteLF [] (Or.inr rfl)
      (natDecimalDigits_isDigit v.natAbs d1 (by rw [hds]; simp))
      (fun x hx => natDecimalDigits_isDigit v.natAbs x (by rw [hds]; simp [hx]))
      (by decide)]
    rw [← hds]
    have habs : -((v.natAbs : Nat) : Int) = v := by omega
    simp only [show endWithState DecodeState.Data byteLF =
        Except.ok DecodeState.End from rfl,
      rustFromStrRadixSigned_minus min max (natDecimalDigits v.natAbs)
        (natDecimalDigits_ne_nil v.natAbs) (natDecimalDigits_isDigit v.natAbs),
      decimalValue_natDecimalDigits v.natAbs, habs, if_pos hmin]
  · unfold intDecimalDigits
    rw [if_neg hneg]
    obtain ⟨d1, ds', hds⟩ : ∃ a l, natDecimalDigits v.toNat = a :: l := by
      cases hnd : natDecimalDigits v.toNat with
      | nil => exact absurd hnd (natDecimalDigits_ne_nil v.toNat)
      | cons a l => exact ⟨a, l, rfl⟩
    rw [hds]
    rw [decodeNumericInteger_digits (rustFromStrRadixSigned min max)
      DecodeState.Data d1 ds' byteLF []
      (natDecimalDigits_isDigit v.toNat d1 (by rw [hds]; simp))
      (fun x hx => natDecimalDigits_isDigit v.toNat x (by rw [hds]; simp [hx]))
      (by decide)]
    rw [← hds]
    have htn : ((v.toNat : Nat) : Int) = v := by omega
    simp only [show endWithState DecodeState.Data byteLF =
        Except.ok DecodeState.End from rfl,
      rustFromStrRadixSigned_digits min max (natDecimalDigits v.toNat)
        (natDecimalDigits_ne_nil v.toNat) (natDecimalDigits_isDigit v.toNat),
      decimalValue_natDecimalDigits v.toNat, htn, if_pos hmax]

/-! ### String and block encoding lemmas -/

theorem splitOnQuote_ne_nil (s : List Nat) : splitOnQuote s ≠ [] := by
  cases s with
  | nil => simp [splitOnQuote]
  | cons b bs =>
    simp only [splitOnQuote]
    by_cases hq : b = byteQuote
    · rw [if_pos hq]; simp
    · rw [if_neg hq]
      cases splitOnQuote bs with
      | nil => simp
      | cons c cs => simp

theorem joinEscapedQuotes_splitOnQuote (s : List Nat) :
    joinEscapedQuotes (splitOnQuote s) = escapeBytes s := by
  induction s with
  | nil => rfl
  | cons b bs ih =>
    simp only [splitOnQuote, escapeBytes]
    by_cases hq : b = byteQuote
    · rw [if_pos hq, if_pos hq]
      cases hsp : splitOnQuote bs with
      | nil => exact absurd hsp (splitOnQuote_ne_nil bs)
      | cons c cs =>
        rw [hsp] at ih
        show [] ++ [byteQuote, byteQuote] ++ joinEscapedQuotes (c :: cs) =
          byteQuote :: byteQuote :: escapeBytes bs
        rw [ih]
        simp
    · rw [if_neg hq, if_neg hq]
      cases hsp : splitOnQuote bs with
      | nil => exact absurd hsp (splitOnQuote_ne_nil bs)
      | cons c cs =>
        rw [hsp] at ih
        cases cs with
        | nil =>
          have hc : c = escapeBytes bs := ih
          show b :: c = b :: escapeBytes bs
          rw [hc]
        | cons c2 cs' =>
          have hc : c ++ [byteQuote, byteQuote] ++
              joinEscapedQuotes (c2 :: cs') = escapeBytes bs := ih
          show (b :: c) ++ [byteQuote, byteQuote] ++
            joinEscapedQuotes (c2 :: cs') = b :: escapeBytes bs
          rw [← hc]
          simp

theorem encodeString_ok (s : List Nat) (h : allAscii s = true) :
    encodeString s =
      Except.ok (byteQuote :: (escapeBytes s ++ [byteQuote])) := by
  unfold encodeString
  rw [if_pos h, joinEscapedQuotes_splitOnQuote]

theorem decodeString_roundtrip (s : List Nat) (h : allAscii s = true) :
    decodeString DecodeState.Data
      ((byteQuote :: (escapeBytes s ++ [byteQuote])) ++ [byteLF]) =
      Except.ok (s, DecodeState.End, []) := by
  rw [show (byteQuote :: (escapeBytes s ++ [byteQuote])) ++ [byteLF] =
      byteQuote :: (escapeBytes s ++ byteQuote :: byteLF :: []) by simp]
  exact decodeString_escaped s byteLF [] DecodeState.End h (by decide) rfl

theorem encodeDefiniteBlockHeader_small (len : Nat) (h : len ≤ 999999999) :
    encodeDefiniteBlockHeader len =
      Except.ok (byteHash :: (48 + (natDecimalDigits len).length) ::
        natDecimalDigits len) := by
  have hpow : (10 : Nat) ^ 9 = 1000000000 := by norm_num
  have hlen9 : (natDecimalDigits len).length ≤ 9 :=
    natDecimalDigits_length_le len 9 (by omega) (by omega)
  unfold encodeDefiniteBlockHeader
  have hpush : (ArrayBuffer.new 11).pushAll
      ([byteHash, 48] ++ natDecimalDigits len) =
      Except.ok { capacity := 11,
                  written := [byteHash, 48] ++ natDecimalDigits len } := by
    simp only [ArrayBuffer.pushAll, ArrayBuffer.new]
    rw [if_pos (by simp; omega)]
    simp
  rw [hpush]
  show Except.ok
    (([byteHash, 48] ++ natDecimalDigits len).set 1
      (48 + (([byteHash, 48] ++ natDecimalDigits len).length - 2))) = _
  simp [byteHash]

theorem encodeDefiniteBlock_ok (blk : List Nat) (h : blk.length ≤ 999999999) :
    encodeDefiniteBlock blk =
      Except.ok ((byteHash :: (48 + (natDecimalDigits blk.length).length) ::
        natDecimalDigits blk.length) ++ blk) := by
  unfold encodeDefiniteBlock
  rw [encodeDefiniteBlockHeader_small blk.length h]

theorem decodeArbitraryBlock_roundtrip (blk : List Nat)
    (h : blk.length ≤ 999999999) :
    decodeArbitraryBlock DecodeState.Data
      (((byteHash :: (48 + (natDecimalDigits blk.length).length) ::
        natDecimalDigits blk.length) ++ blk) ++ [byteLF]) =
      Except.ok (blk, DecodeState.End, []) := by
  have hpow : (10 : Nat) ^ 9 = 1000000000 := by norm_num
  have hL1 : 1 ≤ (natDecimalDigits blk.length).length :=
    List.length_pos.mpr (natDecimalDigits_ne_nil blk.length)
  have hL9 : (natDecimalDigits blk.length).length ≤ 9 :=
    natDecimalDigits_length_le blk.length 9 (by omega) (by omega)
  rw [show ((byteHash :: (48 + (natDecimalDigits blk.length).length) ::
      natDecimalDigits blk.length) ++ blk) ++ [byteLF] =
      byteHash :: (48 + (natDecimalDigits blk.length).length) ::
        (natDecimalDigits blk.length ++ (blk ++ byteLF :: [])) by simp]
  rw [decodeArbitraryBlock_definite DecodeState.Data
    (48 + (natDecimalDigits blk.length).length) (natDecimalDigits blk.length)
    (blk ++ byteLF :: []) (by omega) (by omega) (by omega)
    (natDecimalDigits_isDigit blk.length)]
  rw [parseUsize_digits (natDecimalDigits blk.length)
    (natDecimalDigits_ne_nil blk.length)
    (natDecimalDigits_isDigit blk.length) hL9]
  rw [decimalValue_natDecimalDigits blk.length]
  simp only [readBlockBytes_exact]
  rfl

/-! ### C1 — round trip -/

/-- C1 counterexample: the representable `f32` value `+∞` does not round
trip.  The encoder writes the SCPI character token `INF` for it, and the
NR2/NR3 response decoder rejects that token with `Parse` at its first byte
(whatever the target type's `from_str` would do), so decoding the encoded
bytes plus the terminator yields an error, not the value. -/
theorem C1_roundtrip_counterexample :
    encodeNumericFloat f32InfIsFinite f32InfIsNan f32InfIsSignPositive
      f32InfFmtUpperExp () = Except.ok [73, 78, 70]
    ∧ decodeNumericFloat (fun _ => (some () : Option Unit)) DecodeState.Data
        ([73, 78, 70] ++ [byteLF]) = Except.error DecodeError.Parse :=
  ⟨rfl, rfl⟩

/-- C1 (amended): round trip holds for booleans, for signed and unsigned
integers whose decimal text fits the 32-byte encode scratch buffer (every
value of the widths up to 64 bits; `u128`/`i128` only below 33 digits, see
the C4 bug), for ASCII strings, and for byte blocks shorter than `10^9`
(the largest length the one-digit length-of-length header field and the
9-digit decode buffer admit); floating-point values are excluded, for they
do not round trip. -/
theorem C1_roundtrip_amended :
    (∀ v : Bool,
      decodeBoolean DecodeState.Data (encodeBoolean v ++ [byteLF]) =
        Except.ok (v, DecodeState.End, []))
    ∧ (∀ max v : Nat, v ≤ max → (natDecimalDigits v).length ≤ 32 →
        encodeNumericInteger (natDecimalDigits v) =
          Except.ok (natDecimalDigits v)
        ∧ decodeNumericInteger (rustFromStrRadixUnsigned max)
            DecodeState.Data (natDecimalDigits v ++ [byteLF]) =
            Except.ok (v, DecodeState.End, []))
    ∧ (∀ min max v : Int, min ≤ v → v ≤ max →
        (intDecimalDigits v).length ≤ 32 →
        encodeNumericInteger (intDecimalDigits v) =
          Except.ok (intDecimalDigits v)
        ∧ decodeNumericInteger (rustFromStrRadixSigned min max)
            DecodeState.Data (intDecimalDigits v ++ [byteLF]) =
            Except.ok (v, DecodeState.End, []))
    ∧ (∀ s : List Nat, allAscii s = true →
        encodeString s =
          Except.ok (byteQuote :: (escapeBytes s ++ [byteQuote]))
        ∧ decodeString DecodeState.Data
            ((byteQuote :: (escapeBytes s ++ [byteQuote])) ++ [byteLF]) =
            Except.ok (s, DecodeState.End, []))
    ∧ (∀ blk : List Nat, blk.length ≤ 999999999 →
        encodeDefiniteBlock blk =
          Except.ok ((byteHash :: (48 + (natDecimalDigits blk.length).length)
            :: natDecimalDigits blk.length) ++ blk)
        ∧ decodeArbitraryBlock DecodeState.Data
            (((byteHash :: (48 + (natDecimalDigits blk.length).length) ::
              natDecimalDigits blk.length) ++ blk) ++ [byteLF]) =
            Except.ok (blk, DecodeState.End, [])) := by
  refine ⟨?_, ?_, ?_, ?_, ?_⟩
  · intro v
    cases v <;> decide
  · intro max v hv hlen
    constructor
    · simp [encodeNumericInteger, ArrayBuffer.pushAll, ArrayBuffer.new,
        Except.map, hlen]
    · exact decodeNumericInteger_unsigned_roundtrip max v hv
  · intro min max v hmin hmax hlen
    constructor
    · simp [encodeNumericInteger, ArrayBuffer.pushAll, ArrayBuffer.new,
        Except.map, hlen]
    · exact decodeNumericInteger_signed_roundtrip min max v hmin hmax
  · intro s hascii
    exact ⟨encodeString_ok s hascii, decodeString_roundtrip s hascii⟩
  · intro blk hlen
    exact ⟨encodeDefiniteBlock_ok blk hlen,
      decodeArbitraryBlock_roundtrip blk hlen⟩

/-- C1 witness: the amended round trip applied at `true`, `42` as `u8`,
`-42` as `i8`, the string `A"B`, and the block `ASDF`. -/
theorem C1_roundtrip_amended_witness :
    decodeBoolean DecodeState.Data (encodeBoolean true ++ [byteLF]) =
      Except.ok (true, DecodeState.End, [])
    ∧ decodeNumericInteger (rustFromStrRadixUnsigned 255) DecodeState.Data
        (natDecimalDigits 42 ++ [byteLF]) =
        Except.ok (42, DecodeState.End, [])
    ∧ decodeNumericInteger (rustFromStrRadixSigned (-128) 127)
        DecodeState.Data (intDecimalDigits (-42) ++ [byteLF]) =
        Except.ok (-42, DecodeState.End, [])
    ∧ decodeString DecodeState.Data
        ((byteQuote :: (escapeBytes [65, 34, 66] ++ [byteQuote])) ++ [byteLF])
        = Except.ok ([65, 34, 66], DecodeState.End, [])
    ∧ decodeArbitraryBlock DecodeState.Data
        (((byteHash ::
          (48 + (natDecimalDigits (List.length [65, 83, 68, 70])).length) ::
          natDecimalDigits (List.length [65, 83, 68, 70])) ++
          [65, 83, 68, 70]) ++ [byteLF]) =
        Except.ok ([65, 83, 68, 70], DecodeState.End, []) :=
  ⟨C1_roundtrip_amended.1 true,
   (C1_roundtrip_amended.2.1 255 42 (by decide) (by decide)).2,
   (C1_roundtrip_amended.2.2.1 (-128) 127 (-42) (by decide) (by decide)
      (by decide)).2,
   (C1_roundtrip_amended.2.2.2.1 [65, 34, 66] (by decide)).2,
   (C1_roundtrip_amended.2.2.2.2 [65, 83, 68, 70] (by decide)).2⟩

end RedSculpin
